import Mathlib

/-!
Shallow embedding of the orchestrator core of the `flohil/webdriverio` fork:
the `Launcher` class (process scheduler plus result-aggregation state machine).
JavaScript strings are modelled as `List Char`, JavaScript numbers as `Int`
(queue lengths as `Nat`), JavaScript objects used as string-keyed maps as
insertion-ordered association lists, and `undefined` as `Option.none`.
Operations that throw a `TypeError` at runtime (for example `Array.reduce`
without an initial value on an empty array, or a property access on
`undefined`) are modelled as `Option`-returning functions whose `none` case is
the crash.
-/

namespace Wdio

/-! ## JavaScript primitive helpers -/

/-- Model of `Array.prototype.reduce(f)` without an initial value: throws
(`none`) on an empty array, otherwise folds from the first element. -/
def jsReduce1 (f : α → α → α) : List α → Option α
  | [] => none
  | x :: xs => some (xs.foldl f x)

/-- Model of `String.prototype.lastIndexOf(c)` for a single character on a
string viewed as a character list: `-1` when absent. -/
def jsLastIndexOf (c : Char) : List Char → Int
  | [] => -1
  | x :: xs =>
    let r := jsLastIndexOf c xs
    if 0 ≤ r then r + 1 else if x = c then 0 else -1

/-- Model of the trailing-newline trim used by the `test:fail` handler:
`const i = s.lastIndexOf(c); if (i > 0) s = s.substring(0, i)`. -/
def jsCutAfterLast (c : Char) (s : List Char) : List Char :=
  let i := jsLastIndexOf c s
  if 0 < i then s.take i.toNat else s

/-- Whitespace predicate backing the model of `String.prototype.trim`. -/
def jsIsWs (c : Char) : Bool :=
  c = ' ' || c = '\t' || c = '\n' || c = '\r'

/-- Model of `String.prototype.trim`: strips whitespace from both ends. -/
def jsTrim (s : List Char) : List Char :=
  ((s.dropWhile jsIsWs).reverse.dropWhile jsIsWs).reverse

/-- Model of `String.prototype.split('\n')` on a character list. -/
def jsSplitNl : List Char → List (List Char)
  | [] => [[]]
  | c :: cs =>
    match jsSplitNl cs with
    | [] => [[c]]
    | h :: t => if c = '\n' then [] :: h :: t else (c :: h) :: t

/-- Model of reading `obj[k]` from a JavaScript object used as a map. -/
def jsGet (m : List (String × α)) (k : String) : Option α :=
  (m.find? (fun p => p.1 == k)).map (·.2)

/-- Model of reading `obj[k]` where the key expression may be `undefined`
(a lookup with key `undefined` finds nothing, since no handler ever stores
under the literal property name produced by an undefined key). -/
def jsGetOpt (m : List (String × α)) (k : Option String) : Option α :=
  match k with
  | none => none
  | some s => jsGet m s

/-- Model of the JavaScript ensure-then-mutate idiom
`if (!(k in obj)) obj[k] = d; f(obj[k])`: updates the binding of `k` in
place, appending a fresh binding built from the default `d` when the key is
absent (matching object insertion order). -/
def jsUpsert (k : String) (f : α → α) (d : α) : List (String × α) → List (String × α)
  | [] => [(k, f d)]
  | (k', v) :: rest =>
    if k' == k then (k', f v) :: rest else (k', v) :: jsUpsert k f d rest

/-! ## Result-aggregation data model (`Launcher` constructor state) -/

/-- One failure outcome stored in a `ValidationRecord` failures bucket
(pushed by `fillValidationResults` and by the `validate:failure` /
`validate:broken` handler, or by the manual-result merge, which stores no
`matcherName`). An absent `matcherName` models an exception-style failure. -/
structure FailureOutcome where
  matcherName : Option String
  message : List Char
  expected : Option String
  actual : Option String
  stack : List Char
deriving Repr, DecidableEq

/-- One success outcome stored in a `ValidationRecord` successes bucket. -/
structure SuccessOutcome where
  matcherName : Option String
  actual : Option String
  expected : Option String
deriving Repr, DecidableEq

/-- Screenshot references collected per failure message text. -/
abbrev ScreenStore := List (List Char × List (List Char))

/-- Per story record of `this.validationResults[group]`, keyed by criteria id
inside each bucket: `{ successes: {}, failures: {}, arguments: {},
screenshots: {} }`. -/
structure StoryRec where
  successes : List (String × List SuccessOutcome)
  failures : List (String × List FailureOutcome)
  arguments : List (String × List Char)
  screenshots : List (String × ScreenStore)
deriving Repr, DecidableEq

/-- The fresh story record created by the handlers. -/
def emptyStoryRec : StoryRec := ⟨[], [], [], []⟩

/-- One capability group of `this.validationResults`, keyed by story id. -/
abbrev GroupResults := List (String × StoryRec)

/-- `this.validationResults`, keyed by capability-group id. -/
abbrev ValidationResults := List (String × GroupResults)

/-- An assertion payload carried by `step:failed`, `step:broken` and
`validate:*` messages (`m.assertion`) and buffered in `this.stepErrors`. -/
structure Assertion where
  matcherName : Option String
  message : List Char
  expected : Option String
  actual : Option String
  stack : List Char
  specObj : Option (List (String × List String))
deriving Repr, DecidableEq

/-- Transient per-group `this.validationStates[group]` entry: the story and
criteria most recently named by a `step:end` in the validation phase, plus the
assertion failures and screenshots collected since the last `step:end`
consumed them. -/
structure ValidationState where
  storyId : Option String
  criteriaId : Option String
  assertionFailures : Option (List Assertion)
  screenshots : Option ScreenStore
deriving Repr, DecidableEq

/-- The `m.err` object synthesised by `evaluateValidations`: the unvalidated
branch sets only `message`, the failure branch also sets `stack` and an empty
`matcherName`. -/
structure EvalErr where
  message : List Char
  stack : Option (List Char)
  matcherName : Option (List Char)
deriving Repr, DecidableEq

/-- The message fields written by `evaluateValidations`: the returned status
string plus the `m.err`, `m.errs` and `m.screenshots` assignments (`none`
when the branch leaves the field untouched). -/
structure EvalResult where
  status : String
  err : Option EvalErr
  errs : Option (List FailureOutcome)
  screenshots : Option (Option ScreenStore)
deriving Repr, DecidableEq

/-- Interpolation of a possibly-undefined id into a template literal. -/
def jsShow (o : Option String) : String := o.getD "undefined"

/-- Model of `Launcher.evaluateValidations` (part_001 lines 1051-1093),
threading `this.validationResults` through explicitly: the source method
reads `this.validationResults[group][storyId]`, writes only to the message
`m`, and returns a status string. `none` models the `TypeError` thrown by
`Array.reduce` without an initial value when a failures bucket exists but is
an empty array (never the case for buckets built by the handlers). -/
def evaluateValidations (vres : ValidationResults) (group : String)
    (storyId criteriaId : Option String) :
    Option (ValidationResults × EvalResult) :=
  match (jsGet vres group).bind (fun gr => jsGetOpt gr storyId) with
  | some story =>
    match jsGetOpt story.failures criteriaId with
    | some fails =>
      match jsReduce1 (fun prev cur => prev ++ ('\n' :: '\n' :: cur)) (fails.map (·.message)),
            jsReduce1 (fun prev cur => prev ++ ('\n' :: '\n' :: cur)) (fails.map (·.stack)) with
      | some msg, some stk =>
        some (vres,
          { status := if fails.any (fun e => e.matcherName.isNone) then "broken" else "fail"
            err := some ⟨msg ++ ['\n'], some stk, some []⟩
            errs := some fails
            screenshots := some (jsGetOpt story.screenshots criteriaId) })
      | _, _ => none
    | none =>
      if (jsGetOpt story.successes criteriaId).isSome then
        some (vres,
          { status := "pass", err := none, errs := none, screenshots := none })
      else
        some (vres,
          { status := "unvalidated"
            err := some ⟨("Spec " ++ jsShow storyId ++ ": Then " ++ jsShow criteriaId
                      ++ " was not validated!").toList, none, none⟩
            errs := none, screenshots := none })
  | none =>
    some (vres,
      { status := "unvalidated"
        err := some ⟨("Spec " ++ jsShow storyId ++ ": Then " ++ jsShow criteriaId
                  ++ " was not validated!").toList, none, none⟩
        errs := none, screenshots := none })

/-- Model of the `case 'test:pass'` branch of `messageHandler` in the
validation phase (part_001 lines 788-797): reads the story and criteria
recorded in `this.validationStates[group]` (a `TypeError`, modelled `none`,
when no entry exists for the group), classifies via `evaluateValidations`,
and rewrites the event tag to `test:<status>`. The trailing
`addTestArguments` call only copies `story.arguments[criteriaId]` onto the
message and touches no aggregation state, so it is not modelled. -/
def messageHandlerTestPass (vres : ValidationResults)
    (vstates : List (String × ValidationState)) (group : String) :
    Option (ValidationResults × String × EvalResult) :=
  match jsGet vstates group with
  | none => none
  | some vs =>
    match evaluateValidations vres group vs.storyId vs.criteriaId with
    | none => none
    | some (vres', r) => some (vres', "test:" ++ r.status, r)

/-! ## Execution-phase step aggregation (`stepStates`, `stepErrors`) -/

/-- Per-group `this.stepStates[group]`: the current step nesting level and the
status stack for the levels seen so far (the source stores the strings
`passed` and `failed`; `levelStatus` only ever grows within a test and is
reset when a step event arrives at level `0`). -/
structure StepState where
  stepLevel : Int
  levelStatus : List String
deriving Repr, DecidableEq

/-- Model of the assignment `levelStatus[levelStatus.length - 1] = 'failed'`:
on an empty array it writes the index `-1` property and leaves the array
contents unchanged. -/
def setLastFailed : List String → List String
  | [] => []
  | [_] => ["failed"]
  | x :: y :: rest => x :: setLastFailed (y :: rest)

/-- The common prelude run for every `step:*` event in the execution phase
(part_001 lines 877-887): create `stepStates[group]` at level `0` when
missing, and reset `levelStatus` to `[]` whenever the level is `0`. -/
def stepEventBase (oss : Option StepState) : StepState :=
  let ss := oss.getD ⟨0, []⟩
  if ss.stepLevel = 0 then { ss with levelStatus := [] } else ss

/-- The outgoing fields of a processed execution-phase `step:end` message:
the step state and validation state after the handler, the `m.status` string
(`none` models the `undefined` read `levelStatus[-1]` on an empty stack), and
the `m.assertionFailures` / `m.screenshots` attachments (outer `none` when
the handler leaves the field unset). -/
structure StepEndResult where
  stepState : StepState
  vstate : Option ValidationState
  status : Option String
  assertionFailures : Option (List Assertion)
  screenshots : Option (Option ScreenStore)
deriving Repr, DecidableEq

/-- Model of the `step:end` branch of `messageHandler` in the execution phase
(part_001 lines 877-887 and 921-942): the status is the last entry of
`levelStatus` when the stack is longer than the current level (a child result
bubbling up), else `passed`; pending assertion failures of the group force
`failed`, are attached to the message together with the collected
screenshots, mark the stack, and are cleared; finally the level drops. -/
def messageHandlerStepEnd (oss : Option StepState) (ovs : Option ValidationState) :
    StepEndResult :=
  let ss := stepEventBase oss
  let status0 : Option String :=
    if (ss.levelStatus.length : Int) > ss.stepLevel then ss.levelStatus.getLast?
    else some "passed"
  match ovs with
  | some vs =>
    if vs.assertionFailures.isSome then
      { stepState := ⟨ss.stepLevel - 1, setLastFailed ss.levelStatus⟩
        vstate := some { vs with assertionFailures := none, screenshots := none }
        status := some "failed"
        assertionFailures := vs.assertionFailures
        screenshots := some vs.screenshots }
    else
      { stepState := ⟨ss.stepLevel - 1, ss.levelStatus⟩
        vstate := some vs
        status := status0
        assertionFailures := none
        screenshots := none }
  | none =>
    { stepState := ⟨ss.stepLevel - 1, ss.levelStatus⟩
      vstate := none
      status := status0
      assertionFailures := none
      screenshots := none }

/-- Per-group `this.stepErrors[group]`: assertions buffered from `step:failed`
and `step:broken` events since the last `test:start`. -/
structure StepErrors where
  failed : List Assertion
  broken : List Assertion
deriving Repr, DecidableEq

/-- Model of the first block of `handleAssertion` (part_001 lines 712-716):
when the trimmed stack does not start with `at`, drop its first line
(`split('\n')`, `shift()`, `join('\n')`). -/
def patchAssertionStack (a : Assertion) : Assertion :=
  match jsTrim a.stack with
  | 'a' :: 't' :: _ => a
  | _ => { a with stack := List.intercalate ['\n'] ((jsSplitNl a.stack).drop 1) }

/-- Model of `fillValidationResults` (part_001 lines 685-709) at the level of
one capability group: for every story named in the `specObj` of the assertion
and every criteria listed there, append a failure outcome built from the
assertion to the failures bucket. -/
def fillValidationResults (a : Assertion) (specObj : List (String × List String))
    (gr : GroupResults) : GroupResults :=
  specObj.foldl (fun gr kv =>
    jsUpsert kv.1
      (fun story =>
        kv.2.foldl (fun st criteria =>
          { st with failures := (jsUpsert criteria
              (fun l => l ++ [⟨a.matcherName, a.message, a.expected, a.actual, a.stack⟩])
              [] st.failures) }) story)
      emptyStoryRec gr) gr

/-- One `handleAssertion` call (part_001 lines 711-727) acting on the
accumulating `m.err.message`, `m.err.stack`, `m.errs` and on the group bucket
of `this.validationResults`. -/
def handleAssertion (acc : GroupResults × List Char × List Char × List Assertion)
    (a : Assertion) : GroupResults × List Char × List Char × List Assertion :=
  let a' := patchAssertionStack a
  let gr' :=
    match a'.specObj with
    | some so => fillValidationResults a' so acc.1
    | none => acc.1
  (gr', acc.2.1 ++ a'.message ++ ['\n', '\n'], acc.2.2.1 ++ a'.stack ++ ['\n', '\n'],
    acc.2.2.2 ++ [a'])

/-- The outgoing fields of a processed execution-phase `test:fail` message. -/
structure TestFailResult where
  groupResults : GroupResults
  event : String
  errMessage : List Char
  errStack : List Char
  errs : List Assertion
deriving Repr, DecidableEq

/-- Model of the `test:fail` branch of `messageHandler` in the execution
phase (part_001 lines 839-875): runs `handleAssertion` over the buffered
`failed` then `broken` assertions of the group, trims the trailing newline of
the aggregated message and stack, and rewrites the event tag to
`test:broken` exactly when the `broken` bucket is non-empty. -/
def messageHandlerTestFail (se : StepErrors) (gr : GroupResults) : TestFailResult :=
  let r := (se.failed ++ se.broken).foldl handleAssertion (gr, [], [], [])
  { groupResults := r.1
    event := if se.broken.length > 0 then "test:broken" else "test:fail"
    errMessage := jsCutAfterLast '\n' r.2.1
    errStack := jsCutAfterLast '\n' r.2.2.1
    errs := r.2.2.2 }

/-! ## Schedule and dispatch loop -/

/-- One entry of `this.schedule` (part_001 lines 179-186, 220-227). The
phase-one seeding fills `testcases` and the phase-two seeding fills `specs`;
the structure carries both queues so that one state type serves both phases. -/
structure ScheduleEntry where
  cid : Nat
  testcases : List String
  specs : List String
  availableInstances : Int
  runningInstances : Int
deriving Repr, DecidableEq

/-- The configuration fields the scheduler reads: `config.maxInstances`,
`config.bail` (`none` models a value that is not a number) and
`config.maxInstancesPerCapability`. -/
structure Config where
  maxInstances : Int
  bail : Option Int
  maxInstancesPerCapability : Int
deriving Repr, DecidableEq

/-- The `Launcher` fields the dispatch loop and the exit handler touch. -/
structure LauncherState where
  schedule : List ScheduleEntry
  runnerFailed : Int
  hasTriggeredExitRoutine : Bool
  exitCode : Int
deriving Repr, DecidableEq

/-- Model of `getNumberOfRunningInstances` (part_001 lines 465-467):
`reduce((a, b) => a + b, 0)` with an initial value, hence total. -/
def getNumberOfRunningInstances (sched : List ScheduleEntry) : Int :=
  (sched.map (·.runningInstances)).foldl (· + ·) 0

/-- Model of `getNumberOfTestcasesLeft` (part_001 lines 474-476): the
`reduce` carries no initial value, so an empty schedule throws (`none`). -/
def getNumberOfTestcasesLeft (sched : List ScheduleEntry) : Option Nat :=
  jsReduce1 (· + ·) (sched.map (·.testcases.length))

/-- Model of `getNumberOfSpecsLeft` (part_001 lines 478-480): `reduce` with
initial value `0`, hence total. -/
def getNumberOfSpecsLeft (sched : List ScheduleEntry) : Nat :=
  (sched.map (·.specs.length)).foldl (· + ·) 0

/-- The two dispatch loops differ only in which work queue they drain and in
whether the bail filter is present; this record captures that difference
together with the laws making the queue accessors well-behaved (all hold by
`rfl` for the two concrete phases). -/
structure PhaseOps where
  getQ : ScheduleEntry → List String
  setQ : ScheduleEntry → List String → ScheduleEntry
  useBail : Bool
  get_set : ∀ e q, getQ (setQ e q) = q
  set_avail : ∀ e q, (setQ e q).availableInstances = e.availableInstances
  set_run : ∀ e q, (setQ e q).runningInstances = e.runningInstances
  set_cid : ∀ e q, (setQ e q).cid = e.cid

/-- Phase one (`runTestcases`): drains `testcases` and applies the bail
filter. -/
def testcasePhase : PhaseOps where
  getQ := (·.testcases)
  setQ := fun e q => { e with testcases := q }
  useBail := true
  get_set := fun _ _ => rfl
  set_avail := fun _ _ => rfl
  set_run := fun _ _ => rfl
  set_cid := fun _ _ => rfl

/-- Phase two (`runSpecs`): drains `specs`; the source of `runSpecs`
(part_001 lines 423-440) carries no bail filter. -/
def specPhase : PhaseOps where
  getQ := (·.specs)
  setQ := fun e q => { e with specs := q }
  useBail := false
  get_set := fun _ _ => rfl
  set_avail := fun _ _ => rfl
  set_run := fun _ _ => rfl
  set_cid := fun _ _ => rfl

/-- Pairs each list element with its position, counting from `n`. -/
def withIdx (n : Nat) : List α → List (Nat × α)
  | [] => []
  | x :: xs => (n, x) :: withIdx (n + 1) xs

/-- One insertion step of the sort produced by
`.sort((a, b) => a.runningInstances > b.runningInstances)`: the boolean
comparator coerces to `1`/`0`, so under the insertion-sort semantics of the
engine an element moves left past strictly greater keys and stops at the
first key less than or equal to its own. -/
def insLast (key : α → Int) (x : α) : List α → List α
  | [] => [x]
  | y :: ys => if key y ≤ key x then y :: insLast key x ys else x :: y :: ys

/-- The resulting stable ascending sort: elements are inserted left to right
into the sorted prefix. -/
def jsSortBy (key : α → Int) (l : List α) : List α :=
  l.foldl (fun acc x => insLast key x acc) []

/-- The filter chain of the dispatch loops (part_001 lines 379-387 and
428-436), applied to the position-tagged schedule: total running instances
below `config.maxInstances`, available capacity in the capability, and a
non-empty work queue. -/
def schedulable (ph : PhaseOps) (cfg : Config) (s : LauncherState) :
    List (Nat × ScheduleEntry) :=
  (withIdx 0 s.schedule).filter (fun p =>
    decide (getNumberOfRunningInstances s.schedule < cfg.maxInstances) &&
    decide (0 < p.2.availableInstances) &&
    !(ph.getQ p.2).isEmpty)

/-- `schedulableCaps[0]` : the head of the sorted filtered schedule. -/
def chosen (ph : PhaseOps) (cfg : Config) (s : LauncherState) :
    Option (Nat × ScheduleEntry) :=
  (jsSortBy (fun p => p.2.runningInstances) (schedulable ph cfg s)).head?

/-- The bail condition of the first filter of `runTestcases` (part_001 lines
363-375): the filter keeps entries when `bail` is not a number, is below
`1`, or still exceeds `runnerFailed`; otherwise it rejects everything and
clears every queue. -/
def bailTriggered (cfg : Config) (runnerFailed : Int) : Bool :=
  match cfg.bail with
  | none => false
  | some b => decide (1 ≤ b) && decide (b ≤ runnerFailed)

/-- The side effect of a triggered bail filter:
`this.schedule.forEach((t) => { t.testcases = [] })`. -/
def clearQueues (ph : PhaseOps) (s : LauncherState) : LauncherState :=
  { s with schedule := s.schedule.map (fun e => ph.setQ e []) }

/-- The entry after one dispatch: queue head popped, `availableInstances`
decremented, `runningInstances` incremented (part_001 lines 400-407 resp.
449-455). -/
def dispatchEntry (ph : PhaseOps) (e : ScheduleEntry) : ScheduleEntry :=
  ph.setQ
    { e with availableInstances := e.availableInstances - 1,
             runningInstances := e.runningInstances + 1 }
    ((ph.getQ e).tail)

/-- One dispatch: replace the chosen entry by its dispatched form. -/
def dispatchAt (ph : PhaseOps) (s : LauncherState) (i : Nat) (e : ScheduleEntry) :
    LauncherState :=
  { s with schedule := (s.schedule.set i (dispatchEntry ph e)) }

/-- Total number of queued work items, the termination measure of the loop. -/
def totalQ (ph : PhaseOps) (sched : List ScheduleEntry) : Nat :=
  (sched.map (fun e => (ph.getQ e).length)).sum

/-- The `while` loop shared by `runTestcases` and `runSpecs`, with explicit
fuel (each iteration either dispatches one queued item or terminates, so any
fuel above `totalQ` reproduces the source loop; see `dispatchLoopF_stable`).
Returns the final state and the dispatched work items in order. -/
def dispatchLoopF (ph : PhaseOps) (cfg : Config) :
    Nat → LauncherState → LauncherState × List String
  | 0, s => (s, [])
  | fuel + 1, s =>
    if getNumberOfRunningInstances s.schedule < cfg.maxInstances then
      if ph.useBail && bailTriggered cfg s.runnerFailed && !s.schedule.isEmpty then
        (clearQueues ph s, [])
      else
        match chosen ph cfg s with
        | none => (s, [])
        | some (i, e) =>
          match ph.getQ e with
          | [] => (s, [])
          | w :: _ =>
            let r := dispatchLoopF ph cfg fuel (dispatchAt ph s i e)
            (r.1, w :: r.2)
    else (s, [])

/-- The dispatch loop at its adequate fuel. -/
def dispatchLoop (ph : PhaseOps) (cfg : Config) (s : LauncherState) :
    LauncherState × List String :=
  dispatchLoopF ph cfg (totalQ ph s.schedule + 1) s

/-- Model of `runTestcases` (part_001 lines 348-411): returns `true`
immediately when the exit routine has been triggered, otherwise runs the
dispatch loop and reports whether no instance is running and no testcase is
left. `none` models the `TypeError` of `getNumberOfTestcasesLeft` on an
empty schedule. -/
def runTestcases (cfg : Config) (s : LauncherState) :
    Option (LauncherState × List String × Bool) :=
  if s.hasTriggeredExitRoutine then some (s, [], true)
  else
    let r := dispatchLoop testcasePhase cfg s
    match getNumberOfTestcasesLeft r.1.schedule with
    | none => none
    | some left =>
      some (r.1, r.2,
        decide (getNumberOfRunningInstances r.1.schedule = 0) && decide (left = 0))

/-- Model of `runSpecs` (part_001 lines 413-459): like `runTestcases` but
without the bail filter and with the total `getNumberOfSpecsLeft`. -/
def runSpecs (cfg : Config) (s : LauncherState) :
    LauncherState × List String × Bool :=
  if s.hasTriggeredExitRoutine then (s, [], true)
  else
    let r := dispatchLoop specPhase cfg s
    (r.1, r.2,
      decide (getNumberOfRunningInstances r.1.schedule = 0) &&
      decide (getNumberOfSpecsLeft r.1.schedule = 0))

/-- First half of `endHandler` (part_001 lines 1100-1110): record the first
non-zero exit code, count failed runners, and reclaim the slot of the
capability group the exited worker belonged to (`availableInstances++`,
`runningInstances--`). `none` models the `TypeError` when the group index is
outside the schedule. -/
def reclaimSlot (g : Nat) (exitCode : Int) (s : LauncherState) : Option LauncherState :=
  let s1 := { s with
    exitCode := if s.exitCode ≠ 0 then s.exitCode else exitCode,
    runnerFailed := s.runnerFailed + (if exitCode ≠ 0 then 1 else 0) }
  match s1.schedule.get? g with
  | none => none
  | some e =>
    some { s1 with schedule := (s1.schedule.set g
      { e with availableInstances := e.availableInstances + 1,
               runningInstances := e.runningInstances - 1 }) }

/-- Model of `endHandler` in the spec phase (part_001 lines 1100-1133,
non-multiremote): reclaim the slot, re-run the dispatch loop, and resolve the
phase promise (the returned `Option Int`) exactly when the loop reports the
phase drained, with the accumulated exit code (`1` when non-zero). -/
def endHandlerSpecs (cfg : Config) (g : Nat) (exitCode : Int) (s : LauncherState) :
    Option (LauncherState × List String × Option Int) :=
  (reclaimSlot g exitCode s).map (fun s2 =>
    let r := runSpecs cfg s2
    (r.1, r.2.1, if r.2.2 then some (if r.1.exitCode = 0 then r.1.exitCode else 1) else none))

/-- Model of `endHandler` in the testcase phase: as `endHandlerSpecs`, with
`endHandlerRunFunc = runTestcases` (which may itself throw on an empty
schedule, though the reclaim step already requires a non-empty one). -/
def endHandlerTestcases (cfg : Config) (g : Nat) (exitCode : Int) (s : LauncherState) :
    Option (LauncherState × List String × Option Int) :=
  (reclaimSlot g exitCode s).bind (fun s2 =>
    (runTestcases cfg s2).map (fun r =>
      (r.1, r.2.1, if r.2.2 then some (if r.1.exitCode = 0 then r.1.exitCode else 1) else none)))

/-! ## Seeding and reachable states -/

/-- The capability fields the seeding reads: `capabilities.maxInstances`
(`none` models `undefined`). -/
structure Capability where
  maxInstances : Option Int
deriving Repr, DecidableEq

/-- The per-capability instance limit
`capabilities.maxInstances || config.maxInstancesPerCapability` (a stored
`0` is falsy and also falls back to the config value). -/
def capLimit (cfg : Config) (c : Capability) : Int :=
  match c.maxInstances with
  | none => cfg.maxInstancesPerCapability
  | some v => if v = 0 then cfg.maxInstancesPerCapability else v

/-- The schedule built at the start of a phase (part_001 lines 177-187 and
217-228): one entry per capability, consecutive `cid`, the phase queue
seeded from configuration, `availableInstances` at the capability limit and
no running instance. -/
def seedSchedule (ph : PhaseOps) (cfg : Config) (caps : List Capability)
    (qs : List (List String)) : List ScheduleEntry :=
  (withIdx 0 (caps.zip qs)).map (fun p =>
    ph.setQ { cid := p.1, testcases := [], specs := [],
              availableInstances := capLimit cfg p.2.1, runningInstances := 0 } p.2.2)

/-- A launcher state at the start of a phase. `runnerFailed`, the exit code
and the interrupt flag are arbitrary because the second phase inherits them
from the first. -/
def seedState (ph : PhaseOps) (cfg : Config) (caps : List Capability)
    (qs : List (List String)) (rf ec : Int) (ex : Bool) : LauncherState :=
  { schedule := seedSchedule ph cfg caps qs, runnerFailed := rf,
    hasTriggeredExitRoutine := ex, exitCode := ec }

/-- The states the orchestrator can reach within a run: a freshly seeded
phase, followed by dispatch-loop invocations, worker-exit handling (the
exited worker belongs to a group that has a running instance) and the
interrupt handler setting the exit-routine flag. -/
inductive Reach (cfg : Config) (caps : List Capability) : LauncherState → Prop
  | seedTC (qs : List (List String)) (hlen : qs.length = caps.length)
      (rf ec : Int) (ex : Bool) :
      Reach cfg caps (seedState testcasePhase cfg caps qs rf ec ex)
  | seedSpec (qs : List (List String)) (hlen : qs.length = caps.length)
      (rf ec : Int) (ex : Bool) :
      Reach cfg caps (seedState specPhase cfg caps qs rf ec ex)
  | stepTC {s : LauncherState} {r : LauncherState × List String × Bool} :
      Reach cfg caps s → runTestcases cfg s = some r → Reach cfg caps r.1
  | stepSpec {s : LauncherState} :
      Reach cfg caps s → Reach cfg caps (runSpecs cfg s).1
  | stepExitTC {s : LauncherState} {r : LauncherState × List String × Option Int}
      (g : Nat) (ec : Int) {e : ScheduleEntry} :
      Reach cfg caps s → s.schedule.get? g = some e → 1 ≤ e.runningInstances →
      endHandlerTestcases cfg g ec s = some r → Reach cfg caps r.1
  | stepExitSpec {s : LauncherState} {r : LauncherState × List String × Option Int}
      (g : Nat) (ec : Int) {e : ScheduleEntry} :
      Reach cfg caps s → s.schedule.get? g = some e → 1 ≤ e.runningInstances →
      endHandlerSpecs cfg g ec s = some r → Reach cfg caps r.1
  | sigint {s : LauncherState} :
      Reach cfg caps s → Reach cfg caps { s with hasTriggeredExitRoutine := true }

/-! ## List helper lemmas -/

theorem head?_mem {l : List α} {a : α} (h : l.head? = some a) : a ∈ l := by
  cases l <;> simp_all

theorem withIdx_get? {l : List α} :
    ∀ {n i : Nat} {x : α}, (i, x) ∈ withIdx n l → n ≤ i ∧ l.get? (i - n) = some x := by
  induction l with
  | nil => intro n i x h; simp [withIdx] at h
  | cons y ys ih =>
    intro n i x h
    simp only [withIdx, List.mem_cons] at h
    rcases h with h | h
    · obtain ⟨rfl, rfl⟩ : i = n ∧ x = y := by
        exact ⟨congrArg Prod.fst h, congrArg Prod.snd h⟩
      refine ⟨Nat.le_refl _, ?_⟩
      rw [Nat.sub_self]
      rfl
    · obtain ⟨hle, hget⟩ := ih h
      refine ⟨by omega, ?_⟩
      have heq : i - n = (i - (n + 1)) + 1 := by omega
      rw [heq]
      exact hget

theorem foldl_add_int (l : List Int) : ∀ a : Int, l.foldl (· + ·) a = a + l.sum := by
  induction l with
  | nil => intro a; simp
  | cons x xs ih => intro a; simp [ih]; ring

theorem foldl_add_nat (l : List Nat) : ∀ a : Nat, l.foldl (· + ·) a = a + l.sum := by
  induction l with
  | nil => intro a; simp
  | cons x xs ih => intro a; simp [ih]; omega

theorem map_set_congr {l : List β} (f : β → γ) :
    ∀ {i : Nat} {e e' : β}, l.get? i = some e → f e' = f e →
      (l.set i e').map f = l.map f := by
  induction l with
  | nil => intro i e e' h _; cases i <;> simp at h
  | cons y ys ih =>
    intro i e e' h hf
    cases i with
    | zero =>
      have h' : some y = some e := h
      injection h' with h'
      subst h'
      simp [List.set, hf]
    | succ j =>
      have h' : ys.get? j = some e := h
      simp [List.set, ih h' hf]

theorem sum_map_set_int {l : List β} (f : β → Int) :
    ∀ {i : Nat} {e e' : β}, l.get? i = some e →
      ((l.set i e').map f).sum = (l.map f).sum + f e' - f e := by
  induction l with
  | nil => intro i e e' h; cases i <;> simp at h
  | cons y ys ih =>
    intro i e e' h
    cases i with
    | zero =>
      have h' : some y = some e := h
      injection h' with h'
      subst h'
      simp [List.set]
      ring
    | succ j =>
      have h' : ys.get? j = some e := h
      have hys := @ih j e e' h'
      have hset : (y :: ys).set (j + 1) e' = y :: ys.set j e' := rfl
      rw [hset, List.map_cons, List.sum_cons, hys, List.map_cons, List.sum_cons]
      ring

theorem sum_map_set_nat {l : List β} (f : β → Nat) :
    ∀ {i : Nat} {e e' : β}, l.get? i = some e →
      ((l.set i e').map f).sum + f e = (l.map f).sum + f e' := by
  induction l with
  | nil => intro i e e' h; cases i <;> simp at h
  | cons y ys ih =>
    intro i e e' h
    cases i with
    | zero =>
      have h' : some y = some e := h
      injection h' with h'
      subst h'
      simp [List.set]
      omega
    | succ j =>
      have h' : ys.get? j = some e := h
      have hys := @ih j e e' h'
      have hset : (y :: ys).set (j + 1) e' = y :: ys.set j e' := rfl
      rw [hset, List.map_cons, List.sum_cons, List.map_cons, List.sum_cons]
      omega

/-! ## Sort lemmas: the head of the sorted list is the first minimum -/

/-- The running minimum of the engine insertion sort: starting from `b`,
replace the best only on a strictly smaller key (so the earliest minimal
element survives). -/
def pickMin (key : α → Int) : α → List α → α
  | b, [] => b
  | b, x :: xs => pickMin key (if key x < key b then x else b) xs

theorem foldl_insLast_head (key : α → Int) :
    ∀ (l acc : List α) (b : α), acc.head? = some b →
      (l.foldl (fun acc x => insLast key x acc) acc).head? = some (pickMin key b l) := by
  intro l
  induction l with
  | nil => intro acc b h; simpa [pickMin] using h
  | cons x xs ih =>
    intro acc b h
    have hstep : (insLast key x acc).head? = some (if key x < key b then x else b) := by
      cases acc with
      | nil => simp at h
      | cons b' t =>
        have hb' : b' = b := by simpa using h
        rw [hb']
        by_cases hb : key b ≤ key x
        · have hnx : ¬ key x < key b := by omega
          simp [insLast, hb, hnx]
        · have hx : key x < key b := by omega
          simp [insLast, hb, hx]
    have := ih (insLast key x acc) (if key x < key b then x else b) hstep
    simpa [pickMin] using this

theorem jsSortBy_head (key : α → Int) (x : α) (xs : List α) :
    (jsSortBy key (x :: xs)).head? = some (pickMin key x xs) := by
  have : (insLast key x []).head? = some x := rfl
  simpa [jsSortBy] using foldl_insLast_head key xs (insLast key x []) x this

theorem pickMin_decomp (key : α → Int) :
    ∀ (xs : List α) (b : α), ∃ pre post,
      b :: xs = pre ++ pickMin key b xs :: post ∧
      (∀ a ∈ pre, key (pickMin key b xs) < key a) ∧
      (∀ a ∈ post, key (pickMin key b xs) ≤ key a) := by
  intro xs
  induction xs with
  | nil =>
    intro b
    exact ⟨[], [], by simp [pickMin], by simp, by simp⟩
  | cons x xs ih =>
    intro b
    by_cases hx : key x < key b
    · obtain ⟨pre', post', hdec, hpre, hpost⟩ := ih x
      have hpick : pickMin key b (x :: xs) = pickMin key x xs := by simp [pickMin, hx]
      cases pre' with
      | nil =>
        simp only [List.nil_append] at hdec
        have hx' : x = pickMin key x xs := (List.cons.injEq .. ▸ hdec).1
        have hxs : xs = post' := (List.cons.injEq .. ▸ hdec).2
        refine ⟨[b], xs, ?_, ?_, ?_⟩
        · simp [hpick, ← hx']
        · intro a ha
          simp at ha
          subst ha
          rw [hpick, ← hx']
          exact hx
        · intro a ha
          rw [hpick]
          exact hxs ▸ hpost a (hxs ▸ ha)
      | cons p pre'' =>
        simp only [List.cons_append] at hdec
        have hp : x = p := (List.cons.injEq .. ▸ hdec).1
        have hxs : xs = pre'' ++ pickMin key x xs :: post' := (List.cons.injEq .. ▸ hdec).2
        refine ⟨b :: x :: pre'', post', ?_, ?_, ?_⟩
        · simp [hpick, List.cons_append]
          exact hxs
        · intro a ha
          rw [hpick]
          simp at ha
          rcases ha with rfl | rfl | ha
          · have hm : key (pickMin key x xs) < key x := by
              have := hpre p (by simp)
              rwa [← hp] at this
            omega
          · have := hpre p (by simp)
            rwa [← hp] at this
          · exact hpre a (by simp [ha])
        · intro a ha
          rw [hpick]
          exact hpost a ha
    · obtain ⟨pre', post', hdec, hpre, hpost⟩ := ih b
      have hpick : pickMin key b (x :: xs) = pickMin key b xs := by simp [pickMin, hx]
      cases pre' with
      | nil =>
        simp only [List.nil_append] at hdec
        have hb' : b = pickMin key b xs := (List.cons.injEq .. ▸ hdec).1
        have hxs : xs = post' := (List.cons.injEq .. ▸ hdec).2
        refine ⟨[], x :: xs, ?_, by simp, ?_⟩
        · simp [hpick, ← hb']
        · intro a ha
          rw [hpick, ← hb']
          simp at ha
          rcases ha with rfl | ha
          · omega
          · have := hpost a (hxs ▸ ha)
            rwa [← hb'] at this
      | cons p pre'' =>
        simp only [List.cons_append] at hdec
        have hp : b = p := (List.cons.injEq .. ▸ hdec).1
        have hxs : xs = pre'' ++ pickMin key b xs :: post' := (List.cons.injEq .. ▸ hdec).2
        refine ⟨b :: x :: pre'', post', ?_, ?_, ?_⟩
        · simp [hpick, List.cons_append]
          exact hxs
        · intro a ha
          rw [hpick]
          simp at ha
          rcases ha with rfl | rfl | ha
          · have := hpre p (by simp)
            rwa [← hp] at this
          · have hm : key (pickMin key b xs) < key b := by
              have := hpre p (by simp)
              rwa [← hp] at this
            omega
          · exact hpre a (by simp [ha])
        · intro a ha
          rw [hpick]
          exact hpost a ha

theorem mem_insLast (key : α → Int) (x a : α) :
    ∀ l : List α, a ∈ insLast key x l ↔ a = x ∨ a ∈ l := by
  intro l
  induction l with
  | nil => simp [insLast]
  | cons y ys ih =>
    rw [insLast]
    split
    · rw [List.mem_cons, ih, List.mem_cons]
      tauto
    · rw [List.mem_cons, List.mem_cons]

theorem mem_jsSortBy (key : α → Int) (a : α) :
    ∀ (l acc : List α), a ∈ l.foldl (fun acc x => insLast key x acc) acc ↔ a ∈ acc ∨ a ∈ l := by
  intro l
  induction l with
  | nil => intro acc; simp
  | cons x xs ih =>
    intro acc
    simp only [List.foldl_cons, ih, mem_insLast, List.mem_cons]
    tauto

/-! ## Dispatch-loop lemmas -/

theorem getNumberOfRunningInstances_eq_sum (sched : List ScheduleEntry) :
    getNumberOfRunningInstances sched = (sched.map (·.runningInstances)).sum := by
  unfold getNumberOfRunningInstances
  rw [foldl_add_int]
  omega

theorem getNumberOfSpecsLeft_eq_sum (sched : List ScheduleEntry) :
    getNumberOfSpecsLeft sched = (sched.map (·.specs.length)).sum := by
  unfold getNumberOfSpecsLeft
  rw [foldl_add_nat]
  omega

theorem mem_schedulable {ph : PhaseOps} {cfg : Config} {s : LauncherState}
    {i : Nat} {e : ScheduleEntry} (h : (i, e) ∈ schedulable ph cfg s) :
    s.schedule.get? i = some e ∧
      getNumberOfRunningInstances s.schedule < cfg.maxInstances ∧
      0 < e.availableInstances ∧ ph.getQ e ≠ [] := by
  unfold schedulable at h
  rw [List.mem_filter] at h
  obtain ⟨hmem, hpred⟩ := h
  obtain ⟨-, hget⟩ := withIdx_get? hmem
  rw [Nat.sub_zero] at hget
  simp only [Bool.and_eq_true, decide_eq_true_eq, Bool.not_eq_true',
    List.isEmpty_eq_false_iff_exists_mem] at hpred
  refine ⟨hget, hpred.1.1, hpred.1.2, ?_⟩
  obtain ⟨x, hx⟩ := hpred.2
  intro hnil
  rw [hnil] at hx
  exact absurd hx (List.not_mem_nil x)

theorem chosen_mem {ph : PhaseOps} {cfg : Config} {s : LauncherState}
    {p : Nat × ScheduleEntry} (h : chosen ph cfg s = some p) :
    p ∈ schedulable ph cfg s := by
  unfold chosen at h
  have hmem := head?_mem h
  rw [jsSortBy] at hmem
  rw [mem_jsSortBy] at hmem
  rcases hmem with hmem | hmem
  · exact absurd hmem (List.not_mem_nil p)
  · exact hmem

theorem chosen_isSome_of_ne {ph : PhaseOps} {cfg : Config} {s : LauncherState}
    (h : schedulable ph cfg s ≠ []) : (chosen ph cfg s).isSome := by
  unfold chosen
  cases hs : schedulable ph cfg s with
  | nil => exact absurd hs h
  | cons f fs => rw [jsSortBy_head]; rfl

theorem dispatchLoopF_not_lt {ph : PhaseOps} {cfg : Config} {s : LauncherState} {n : Nat}
    (h1 : ¬ getNumberOfRunningInstances s.schedule < cfg.maxInstances) :
    dispatchLoopF ph cfg (n + 1) s = (s, []) := by
  rw [dispatchLoopF, if_neg h1]

theorem dispatchLoopF_bail {ph : PhaseOps} {cfg : Config} {s : LauncherState} {n : Nat}
    (h1 : getNumberOfRunningInstances s.schedule < cfg.maxInstances)
    (h2 : (ph.useBail && bailTriggered cfg s.runnerFailed && !s.schedule.isEmpty) = true) :
    dispatchLoopF ph cfg (n + 1) s = (clearQueues ph s, []) := by
  rw [dispatchLoopF, if_pos h1, if_pos h2]

theorem dispatchLoopF_none {ph : PhaseOps} {cfg : Config} {s : LauncherState} {n : Nat}
    (h1 : getNumberOfRunningInstances s.schedule < cfg.maxInstances)
    (h2 : ¬ (ph.useBail && bailTriggered cfg s.runnerFailed && !s.schedule.isEmpty) = true)
    (hc : chosen ph cfg s = none) :
    dispatchLoopF ph cfg (n + 1) s = (s, []) := by
  rw [dispatchLoopF, if_pos h1, if_neg h2, hc]

theorem dispatchLoopF_dispatch {ph : PhaseOps} {cfg : Config} {s : LauncherState} {n : Nat}
    {i : Nat} {e : ScheduleEntry} {w : String} {ws : List String}
    (h1 : getNumberOfRunningInstances s.schedule < cfg.maxInstances)
    (h2 : ¬ (ph.useBail && bailTriggered cfg s.runnerFailed && !s.schedule.isEmpty) = true)
    (hc : chosen ph cfg s = some (i, e)) (hq : ph.getQ e = w :: ws) :
    dispatchLoopF ph cfg (n + 1) s =
      ((dispatchLoopF ph cfg n (dispatchAt ph s i e)).1,
        w :: (dispatchLoopF ph cfg n (dispatchAt ph s i e)).2) := by
  simp only [dispatchLoopF, if_pos h1, if_neg h2, hc, hq]

/-- Generic preservation engine for the dispatch loop: a predicate stable
under the bail clearing and under a single dispatch is stable under the whole
loop. -/
theorem dispatchLoopF_pres {ph : PhaseOps} {cfg : Config} (P : LauncherState → Prop)
    (hclear : ∀ s, P s → P (clearQueues ph s))
    (hdisp : ∀ s i e, s.schedule.get? i = some e → 0 < e.availableInstances →
      ph.getQ e ≠ [] → getNumberOfRunningInstances s.schedule < cfg.maxInstances →
      P s → P (dispatchAt ph s i e)) :
    ∀ (fuel : Nat) (s : LauncherState), P s → P (dispatchLoopF ph cfg fuel s).1 := by
  intro fuel
  induction fuel with
  | zero => intro s hP; exact hP
  | succ n ih =>
    intro s hP
    by_cases h1 : getNumberOfRunningInstances s.schedule < cfg.maxInstances
    · by_cases h2 : (ph.useBail && bailTriggered cfg s.runnerFailed && !s.schedule.isEmpty) = true
      · rw [dispatchLoopF_bail h1 h2]
        exact hclear s hP
      · cases hc : chosen ph cfg s with
        | none =>
          rw [dispatchLoopF_none h1 h2 hc]
          exact hP
        | some p =>
          obtain ⟨i, e⟩ := p
          obtain ⟨hget, hrun, havail, hq⟩ := mem_schedulable (chosen_mem hc)
          cases hqe : ph.getQ e with
          | nil => exact absurd hqe hq
          | cons w ws =>
            rw [dispatchLoopF_dispatch h1 h2 hc hqe]
            exact ih (dispatchAt ph s i e) (hdisp s i e hget havail hq hrun hP)
    · rw [dispatchLoopF_not_lt h1]
      exact hP

theorem map_comp_congr (l : List β) (g : β → β) (f : β → γ) (h : ∀ x, f (g x) = f x) :
    (l.map g).map f = l.map f := by
  induction l with
  | nil => rfl
  | cons y ys ih => simp [h, ih]

/-- Any per-entry observable unchanged by requeueing and by the counter
swap of a dispatch (such as `availableInstances + runningInstances`) has its
whole-schedule image preserved by the loop. -/
theorem dispatchLoopF_map_pres {ph : PhaseOps} {cfg : Config} (f : ScheduleEntry → γ)
    (hsetQ : ∀ e q, f (ph.setQ e q) = f e)
    (hswap : ∀ e : ScheduleEntry, f (dispatchEntry ph e) = f e) :
    ∀ (fuel : Nat) (s : LauncherState),
      (dispatchLoopF ph cfg fuel s).1.schedule.map f = s.schedule.map f := by
  intro fuel s
  have := @dispatchLoopF_pres ph cfg
    (fun t => t.schedule.map f = s.schedule.map f) ?_ ?_ fuel s rfl
  · exact this
  · intro t ht
    unfold clearQueues
    rw [← ht]
    exact map_comp_congr t.schedule _ f (fun e => hsetQ e [])
  · intro t i e hget _ _ _ ht
    unfold dispatchAt
    rw [← ht]
    exact map_set_congr f hget (hswap e)

theorem dispatchLoopF_length {ph : PhaseOps} {cfg : Config} :
    ∀ (fuel : Nat) (s : LauncherState),
      (dispatchLoopF ph cfg fuel s).1.schedule.length = s.schedule.length := by
  intro fuel s
  have := @dispatchLoopF_pres ph cfg
    (fun t => t.schedule.length = s.schedule.length) ?_ ?_ fuel s rfl
  · exact this
  · intro t ht
    unfold clearQueues
    rw [← ht]
    exact List.length_map t.schedule _
  · intro t i e _ _ _ _ ht
    unfold dispatchAt
    rw [← ht]
    exact List.length_set t.schedule ..

/-- Popping the head of the chosen queue shrinks the total amount of queued
work by exactly one. -/
theorem totalQ_dispatchAt {ph : PhaseOps} {s : LauncherState} {i : Nat}
    {e : ScheduleEntry} {w : String} {ws : List String}
    (hget : s.schedule.get? i = some e) (hq : ph.getQ e = w :: ws) :
    totalQ ph (dispatchAt ph s i e).schedule + 1 = totalQ ph s.schedule := by
  unfold totalQ dispatchAt
  have hs := @sum_map_set_nat _ s.schedule (fun x => (ph.getQ x).length) i e
    (dispatchEntry ph e) hget
  have hqd : (ph.getQ (dispatchEntry ph e)).length = ws.length := by
    unfold dispatchEntry
    rw [ph.get_set, hq]
    rfl
  simp only [hqd, hq, List.length_cons] at hs
  simp only []
  omega

/-- Fuel adequacy: with strictly more fuel than queued work the loop always
reaches its natural break, so `dispatchLoop` (run at `totalQ + 1`)
reproduces the unbounded source loop. -/
theorem dispatchLoopF_stable {ph : PhaseOps} {cfg : Config} :
    ∀ (n m : Nat) (s : LauncherState), totalQ ph s.schedule < n → totalQ ph s.schedule < m →
      dispatchLoopF ph cfg n s = dispatchLoopF ph cfg m s := by
  intro n
  induction n with
  | zero => intro m s hn _; omega
  | succ n ih =>
    intro m s hn hm
    cases m with
    | zero => omega
    | succ m =>
      by_cases h1 : getNumberOfRunningInstances s.schedule < cfg.maxInstances
      · by_cases h2 : (ph.useBail && bailTriggered cfg s.runnerFailed && !s.schedule.isEmpty) = true
        · rw [dispatchLoopF_bail h1 h2, dispatchLoopF_bail h1 h2]
        · cases hc : chosen ph cfg s with
          | none => rw [dispatchLoopF_none h1 h2 hc, dispatchLoopF_none h1 h2 hc]
          | some p =>
            obtain ⟨i, e⟩ := p
            obtain ⟨hget, -, -, hqne⟩ := mem_schedulable (chosen_mem hc)
            cases hqe : ph.getQ e with
            | nil => exact absurd hqe hqne
            | cons w ws =>
              rw [dispatchLoopF_dispatch h1 h2 hc hqe, dispatchLoopF_dispatch h1 h2 hc hqe]
              have hdec := totalQ_dispatchAt hget hqe
              rw [ih m (dispatchAt ph s i e) (by omega) (by omega)]
      · rw [dispatchLoopF_not_lt h1, dispatchLoopF_not_lt h1]

/-! ## Slot conservation and the concurrency invariant -/

/-- The conserved quantity of a schedule entry. -/
def slotSum (e : ScheduleEntry) : Int :=
  e.availableInstances + e.runningInstances

theorem slotSum_setQ (ph : PhaseOps) (e : ScheduleEntry) (q : List String) :
    slotSum (ph.setQ e q) = slotSum e := by
  unfold slotSum
  rw [ph.set_avail, ph.set_run]

theorem slotSum_dispatchEntry (ph : PhaseOps) (e : ScheduleEntry) :
    slotSum (dispatchEntry ph e) = slotSum e := by
  unfold dispatchEntry
  rw [slotSum_setQ]
  unfold slotSum
  simp only []
  ring

theorem dispatchLoopF_slotSum {ph : PhaseOps} {cfg : Config} (fuel : Nat)
    (s : LauncherState) :
    (dispatchLoopF ph cfg fuel s).1.schedule.map slotSum = s.schedule.map slotSum :=
  dispatchLoopF_map_pres slotSum (slotSum_setQ ph) (slotSum_dispatchEntry ph) fuel s

theorem runSpecs_slotSum (cfg : Config) (s : LauncherState) :
    (runSpecs cfg s).1.schedule.map slotSum = s.schedule.map slotSum := by
  unfold runSpecs
  by_cases hx : s.hasTriggeredExitRoutine
  · rw [if_pos hx]
  · rw [if_neg hx]
    exact dispatchLoopF_slotSum _ s

theorem runTestcases_slotSum {cfg : Config} {s : LauncherState}
    {r : LauncherState × List String × Bool} (h : runTestcases cfg s = some r) :
    r.1.schedule.map slotSum = s.schedule.map slotSum := by
  unfold runTestcases at h
  by_cases hx : s.hasTriggeredExitRoutine
  · rw [if_pos hx] at h
    injection h with h
    rw [← h]
  · rw [if_neg hx] at h
    simp only [] at h
    cases hleft : getNumberOfTestcasesLeft (dispatchLoop testcasePhase cfg s).1.schedule with
    | none => rw [hleft] at h; exact absurd h (by simp)
    | some left =>
      rw [hleft] at h
      injection h with h
      rw [← h]
      exact dispatchLoopF_slotSum _ s

theorem reclaimSlot_slotSum {g : Nat} {ec : Int} {s s2 : LauncherState}
    (h : reclaimSlot g ec s = some s2) :
    s2.schedule.map slotSum = s.schedule.map slotSum := by
  unfold reclaimSlot at h
  simp only [] at h
  cases hget : s.schedule.get? g with
  | none => rw [hget] at h; exact absurd h (by simp)
  | some e =>
    rw [hget] at h
    injection h with h
    rw [← h]
    refine map_set_congr slotSum hget ?_
    unfold slotSum
    simp only []
    ring

/-- Per-capability slot invariant: counters stay non-negative and sum to the
capability limit. -/
def EntryInv (cfg : Config) (c : Capability) (e : ScheduleEntry) : Prop :=
  0 ≤ e.availableInstances ∧ 0 ≤ e.runningInstances ∧
    e.availableInstances + e.runningInstances = capLimit cfg c

/-- Whole-state invariant: the per-entry invariant paired with the
capability list, plus the global concurrency bound. -/
def SchedInv (cfg : Config) (caps : List Capability) (s : LauncherState) : Prop :=
  List.Forall₂ (EntryInv cfg) caps s.schedule ∧
    getNumberOfRunningInstances s.schedule ≤ cfg.maxInstances

theorem forall₂_set {R : α → β → Prop} :
    ∀ {caps : List α} {l : List β} {i : Nat} {e e' : β},
      List.Forall₂ R caps l → l.get? i = some e → (∀ c, R c e → R c e') →
      List.Forall₂ R caps (l.set i e') := by
  intro caps l
  induction l generalizing caps with
  | nil => intro i e e' _ hget _; cases i <;> simp at hget
  | cons y ys ih =>
    intro i e e' hF hget himp
    cases hF with
    | cons hR hF' =>
      cases i with
      | zero =>
        have h' : some y = some e := hget
        injection h' with h'
        subst h'
        exact List.Forall₂.cons (himp _ hR) hF'
      | succ j =>
        have h' : ys.get? j = some e := hget
        exact List.Forall₂.cons hR (ih hF' h' himp)

theorem forall₂_map_right {R : α → β → Prop} (g : β → β) :
    ∀ {caps : List α} {l : List β},
      List.Forall₂ R caps l → (∀ c e, R c e → R c (g e)) →
      List.Forall₂ R caps (l.map g) := by
  intro caps l
  induction l generalizing caps with
  | nil => intro hF _; cases hF; exact List.Forall₂.nil
  | cons y ys ih =>
    intro hF himp
    cases hF with
    | cons hR hF' => exact List.Forall₂.cons (himp _ _ hR) (ih hF' himp)

theorem running_dispatchAt {ph : PhaseOps} {s : LauncherState} {i : Nat}
    {e : ScheduleEntry} (hget : s.schedule.get? i = some e) :
    getNumberOfRunningInstances (dispatchAt ph s i e).schedule =
      getNumberOfRunningInstances s.schedule + 1 := by
  rw [getNumberOfRunningInstances_eq_sum, getNumberOfRunningInstances_eq_sum]
  unfold dispatchAt
  have hs := @sum_map_set_int _ s.schedule (fun x => x.runningInstances) i e
    (dispatchEntry ph e) hget
  have hrun : (dispatchEntry ph e).runningInstances = e.runningInstances + 1 := by
    unfold dispatchEntry
    rw [ph.set_run]
  simp only [] at hs ⊢
  rw [hs, hrun]
  ring

theorem running_clearQueues {ph : PhaseOps} {s : LauncherState} :
    getNumberOfRunningInstances (clearQueues ph s).schedule =
      getNumberOfRunningInstances s.schedule := by
  rw [getNumberOfRunningInstances_eq_sum, getNumberOfRunningInstances_eq_sum]
  unfold clearQueues
  simp only []
  rw [map_comp_congr]
  intro e
  rw [ph.set_run]

theorem entryInv_dispatchEntry {cfg : Config} {ph : PhaseOps} {e : ScheduleEntry}
    (havail : 0 < e.availableInstances) :
    ∀ c, EntryInv cfg c e → EntryInv cfg c (dispatchEntry ph e) := by
  intro c hInv
  obtain ⟨h1, h2, h3⟩ := hInv
  have ha : (dispatchEntry ph e).availableInstances = e.availableInstances - 1 := by
    unfold dispatchEntry
    rw [ph.set_avail]
  have hr : (dispatchEntry ph e).runningInstances = e.runningInstances + 1 := by
    unfold dispatchEntry
    rw [ph.set_run]
  exact ⟨by rw [ha]; omega, by rw [hr]; omega, by rw [ha, hr]; omega⟩

theorem dispatchLoopF_schedinv {ph : PhaseOps} {cfg : Config} {caps : List Capability}
    (fuel : Nat) (s : LauncherState) (h : SchedInv cfg caps s) :
    SchedInv cfg caps (dispatchLoopF ph cfg fuel s).1 := by
  refine @dispatchLoopF_pres ph cfg (SchedInv cfg caps) ?_ ?_ fuel s h
  · intro t ⟨hF, htot⟩
    constructor
    · refine forall₂_map_right _ hF (fun c e hR => ?_)
      obtain ⟨h1, h2, h3⟩ := hR
      have ha := ph.set_avail e []
      have hr := ph.set_run e []
      exact ⟨by rw [ha]; omega, by rw [hr]; omega, by rw [ha, hr]; omega⟩
    · rw [running_clearQueues]
      exact htot
  · intro t i e hget havail _ hrun ⟨hF, htot⟩
    constructor
    · exact forall₂_set hF hget (entryInv_dispatchEntry havail)
    · rw [running_dispatchAt hget]
      omega

theorem sum_map_zero {l : List β} (f : β → Int) (h : ∀ x ∈ l, f x = 0) :
    (l.map f).sum = 0 := by
  induction l with
  | nil => rfl
  | cons y ys ih =>
    rw [List.map_cons, List.sum_cons, h y (by simp), ih (fun x hx => h x (by simp [hx]))]
    ring

theorem seed_running_zero (ph : PhaseOps) (cfg : Config) (caps : List Capability)
    (qs : List (List String)) :
    ∀ e ∈ seedSchedule ph cfg caps qs, e.runningInstances = 0 := by
  intro e he
  unfold seedSchedule at he
  rw [List.mem_map] at he
  obtain ⟨p, -, rfl⟩ := he
  rw [ph.set_run]

theorem seedSchedule_forall₂ {ph : PhaseOps} {cfg : Config} :
    ∀ {caps : List Capability} {qs : List (List String)} {n : Nat},
      qs.length = caps.length → (∀ c ∈ caps, 0 ≤ capLimit cfg c) →
      List.Forall₂ (EntryInv cfg)
        caps ((withIdx n (caps.zip qs)).map (fun p =>
          ph.setQ { cid := p.1, testcases := [], specs := [],
                    availableInstances := capLimit cfg p.2.1, runningInstances := 0 } p.2.2)) := by
  intro caps
  induction caps with
  | nil => intro qs n _ _; simp [withIdx]
  | cons c cs ih =>
    intro qs n hlen hlim
    cases qs with
    | nil => simp at hlen
    | cons q qt =>
      simp only [List.zip_cons_cons, withIdx, List.map_cons]
      refine List.Forall₂.cons ?_ (ih (by simpa using hlen) (fun c' hc' => hlim c' (by simp [hc'])))
      have ha := ph.set_avail
        { cid := n, testcases := [], specs := [],
          availableInstances := capLimit cfg c, runningInstances := 0 } q
      have hr := ph.set_run
        { cid := n, testcases := [], specs := [],
          availableInstances := capLimit cfg c, runningInstances := 0 } q
      have hl := hlim c (by simp)
      exact ⟨by rw [ha]; exact hl, by rw [hr], by rw [ha, hr]; simp⟩

theorem seedState_schedinv {ph : PhaseOps} {cfg : Config} {caps : List Capability}
    {qs : List (List String)} {rf ec : Int} {ex : Bool}
    (hmax : 0 ≤ cfg.maxInstances) (hlen : qs.length = caps.length)
    (hlim : ∀ c ∈ caps, 0 ≤ capLimit cfg c) :
    SchedInv cfg caps (seedState ph cfg caps qs rf ec ex) := by
  constructor
  · exact seedSchedule_forall₂ hlen hlim
  · rw [getNumberOfRunningInstances_eq_sum]
    have hz : ∀ e ∈ (seedState ph cfg caps qs rf ec ex).schedule, e.runningInstances = 0 :=
      seed_running_zero ph cfg caps qs
    rw [@sum_map_zero ScheduleEntry ((seedState ph cfg caps qs rf ec ex).schedule)
      (fun x => x.runningInstances) hz]
    exact hmax

theorem runSpecs_schedinv {cfg : Config} {caps : List Capability} {s : LauncherState}
    (h : SchedInv cfg caps s) : SchedInv cfg caps (runSpecs cfg s).1 := by
  unfold runSpecs
  by_cases hx : s.hasTriggeredExitRoutine
  · rw [if_pos hx]; exact h
  · rw [if_neg hx]; exact dispatchLoopF_schedinv _ s h

theorem runTestcases_schedinv {cfg : Config} {caps : List Capability} {s : LauncherState}
    {r : LauncherState × List String × Bool} (hr : runTestcases cfg s = some r)
    (h : SchedInv cfg caps s) : SchedInv cfg caps r.1 := by
  unfold runTestcases at hr
  by_cases hx : s.hasTriggeredExitRoutine
  · rw [if_pos hx] at hr
    injection hr with hr
    rw [← hr]
    exact h
  · rw [if_neg hx] at hr
    simp only [] at hr
    cases hleft : getNumberOfTestcasesLeft (dispatchLoop testcasePhase cfg s).1.schedule with
    | none => rw [hleft] at hr; exact absurd hr (by simp)
    | some left =>
      rw [hleft] at hr
      injection hr with hr
      rw [← hr]
      exact dispatchLoopF_schedinv _ s h

theorem reclaimSlot_schedinv {cfg : Config} {caps : List Capability} {g : Nat} {ec : Int}
    {s s2 : LauncherState} {e : ScheduleEntry}
    (hget : s.schedule.get? g = some e) (hrun1 : 1 ≤ e.runningInstances)
    (h : reclaimSlot g ec s = some s2) (hInv : SchedInv cfg caps s) : SchedInv cfg caps s2 := by
  obtain ⟨hF, htot⟩ := hInv
  unfold reclaimSlot at h
  simp only [] at h
  rw [hget] at h
  injection h with h
  subst h
  constructor
  · refine forall₂_set hF hget (fun c hR => ?_)
    obtain ⟨h1, h2, h3⟩ := hR
    exact ⟨by simp only []; omega, by simp only []; omega, by simp only []; omega⟩
  · rw [getNumberOfRunningInstances_eq_sum] at htot ⊢
    simp only []
    have hs := @sum_map_set_int _ s.schedule (fun x => x.runningInstances) g e
      { e with availableInstances := e.availableInstances + 1,
               runningInstances := e.runningInstances - 1 } hget
    simp only [] at hs
    omega

theorem endHandlerSpecs_schedinv {cfg : Config} {caps : List Capability} {g : Nat}
    {ec : Int} {s : LauncherState} {r : LauncherState × List String × Option Int}
    {e : ScheduleEntry}
    (hget : s.schedule.get? g = some e) (hrun1 : 1 ≤ e.runningInstances)
    (h : endHandlerSpecs cfg g ec s = some r) (hInv : SchedInv cfg caps s) :
    SchedInv cfg caps r.1 := by
  unfold endHandlerSpecs at h
  cases hrec : reclaimSlot g ec s with
  | none => rw [hrec] at h; exact absurd h (by simp)
  | some s2 =>
    rw [hrec] at h
    simp only [Option.map] at h
    injection h with h
    rw [← h]
    exact runSpecs_schedinv (reclaimSlot_schedinv hget hrun1 hrec hInv)

theorem endHandlerTestcases_schedinv {cfg : Config} {caps : List Capability} {g : Nat}
    {ec : Int} {s : LauncherState} {r : LauncherState × List String × Option Int}
    {e : ScheduleEntry}
    (hget : s.schedule.get? g = some e) (hrun1 : 1 ≤ e.runningInstances)
    (h : endHandlerTestcases cfg g ec s = some r) (hInv : SchedInv cfg caps s) :
    SchedInv cfg caps r.1 := by
  unfold endHandlerTestcases at h
  cases hrec : reclaimSlot g ec s with
  | none => rw [hrec] at h; exact absurd h (by simp)
  | some s2 =>
    rw [hrec] at h
    rw [Option.some_bind] at h
    cases hrt : runTestcases cfg s2 with
    | none => rw [hrt] at h; exact absurd h (by simp)
    | some rr =>
      rw [hrt] at h
      simp only [Option.map] at h
      injection h with h
      rw [← h]
      exact runTestcases_schedinv hrt (reclaimSlot_schedinv hget hrun1 hrec hInv)

theorem reach_schedinv {cfg : Config} {caps : List Capability} {s : LauncherState}
    (hmax : 0 ≤ cfg.maxInstances) (hlim : ∀ c ∈ caps, 0 ≤ capLimit cfg c)
    (h : Reach cfg caps s) : SchedInv cfg caps s := by
  induction h with
  | seedTC qs hlen rf ec ex => exact seedState_schedinv hmax hlen hlim
  | seedSpec qs hlen rf ec ex => exact seedState_schedinv hmax hlen hlim
  | stepTC _ hr ih => exact runTestcases_schedinv hr ih
  | stepSpec _ ih => exact runSpecs_schedinv ih
  | stepExitTC g ec _ hget hrun1 hend ih => exact endHandlerTestcases_schedinv hget hrun1 hend ih
  | stepExitSpec g ec _ hget hrun1 hend ih => exact endHandlerSpecs_schedinv hget hrun1 hend ih
  | sigint _ ih => exact ih

/-! ## Helper lemmas for the claim theorems -/

theorem getNumberOfTestcasesLeft_eq_none_iff (sched : List ScheduleEntry) :
    getNumberOfTestcasesLeft sched = none ↔ sched = [] := by
  cases sched <;> simp [getNumberOfTestcasesLeft, jsReduce1]

theorem runTestcases_isSome_iff (cfg : Config) (s : LauncherState)
    (hx : s.hasTriggeredExitRoutine = false) :
    (runTestcases cfg s).isSome ↔ s.schedule ≠ [] := by
  unfold runTestcases
  rw [if_neg (by rw [hx]; exact Bool.false_ne_true)]
  simp only []
  have hlen : (dispatchLoop testcasePhase cfg s).1.schedule.length = s.schedule.length :=
    dispatchLoopF_length _ s
  cases hL : getNumberOfTestcasesLeft (dispatchLoop testcasePhase cfg s).1.schedule with
  | none =>
    have hnil := (getNumberOfTestcasesLeft_eq_none_iff _).mp hL
    rw [hnil] at hlen
    simp only [Option.isSome_none, Bool.false_eq_true, false_iff, ne_eq, not_not]
    exact List.length_eq_zero.mp hlen.symm
  | some left =>
    have hne : (dispatchLoop testcasePhase cfg s).1.schedule ≠ [] := by
      intro hnil
      rw [(getNumberOfTestcasesLeft_eq_none_iff _).mpr hnil] at hL
      exact absurd hL (by simp)
    simp only [Option.isSome_some, true_iff, ne_eq]
    intro hnil
    rw [hnil] at hlen
    exact hne (List.length_eq_zero.mp hlen)

theorem get?_set_self {l : List β} :
    ∀ {i : Nat} {e a : β}, l.get? i = some e → (l.set i a).get? i = some a := by
  induction l with
  | nil => intro i e a h; cases i <;> simp at h
  | cons y ys ih =>
    intro i e a h
    cases i with
    | zero => rfl
    | succ j =>
      have h' : ys.get? j = some e := h
      exact ih h'

theorem get?_set_other {l : List β} (a : β) :
    ∀ (i j : Nat), j ≠ i → (l.set i a).get? j = l.get? j := by
  induction l with
  | nil => intro i j _; rfl
  | cons y ys ih =>
    intro i j hne
    cases i with
    | zero =>
      cases j with
      | zero => exact absurd rfl hne
      | succ j' => rfl
    | succ i' =>
      cases j with
      | zero => rfl
      | succ j' => exact ih i' j' (by omega)

theorem endHandlerSpecs_decomp {cfg : Config} {g : Nat} {ec : Int} {s : LauncherState}
    {r : LauncherState × List String × Option Int}
    (h : endHandlerSpecs cfg g ec s = some r) :
    ∃ s2, reclaimSlot g ec s = some s2 ∧
      r.1 = (runSpecs cfg s2).1 ∧ r.2.1 = (runSpecs cfg s2).2.1 ∧
      r.2.2 = (if (runSpecs cfg s2).2.2 then
        some (if (runSpecs cfg s2).1.exitCode = 0 then (runSpecs cfg s2).1.exitCode else 1)
        else none) := by
  unfold endHandlerSpecs at h
  cases hrec : reclaimSlot g ec s with
  | none => rw [hrec] at h; exact absurd h (by simp)
  | some s2 =>
    rw [hrec] at h
    simp only [Option.map] at h
    injection h with h
    exact ⟨s2, rfl, by rw [← h], by rw [← h], by rw [← h]⟩

theorem endHandlerTestcases_decomp {cfg : Config} {g : Nat} {ec : Int} {s : LauncherState}
    {r : LauncherState × List String × Option Int}
    (h : endHandlerTestcases cfg g ec s = some r) :
    ∃ s2 rr, reclaimSlot g ec s = some s2 ∧ runTestcases cfg s2 = some rr ∧
      r.1 = rr.1 ∧ r.2.1 = rr.2.1 ∧
      r.2.2 = (if rr.2.2 then some (if rr.1.exitCode = 0 then rr.1.exitCode else 1)
        else none) := by
  unfold endHandlerTestcases at h
  cases hrec : reclaimSlot g ec s with
  | none => rw [hrec] at h; exact absurd h (by simp)
  | some s2 =>
    rw [hrec] at h
    rw [Option.some_bind] at h
    cases hrt : runTestcases cfg s2 with
    | none => rw [hrt] at h; exact absurd h (by simp)
    | some rr =>
      rw [hrt] at h
      simp only [Option.map] at h
      injection h with h
      exact ⟨s2, rr, rfl, hrt, by rw [← h], by rw [← h], by rw [← h]⟩

/-! ## Claim theorems: scheduler -/

/-- C10: `getNumberOfRunningInstances` and `getNumberOfSpecsLeft` reduce with
initial accumulator `0` and return `0` on the empty schedule, while
`getNumberOfTestcasesLeft` reduces without an initial value and throws there;
consequently `runTestcases` (in its dispatch role, exit routine not
triggered) returns a value exactly when the schedule is non-empty, and on an
empty schedule its error branch is reached. -/
theorem claim10 :
    getNumberOfRunningInstances [] = 0 ∧
    getNumberOfSpecsLeft [] = 0 ∧
    getNumberOfTestcasesLeft [] = none ∧
    (∀ (cfg : Config) (s : LauncherState), s.hasTriggeredExitRoutine = false →
      ((runTestcases cfg s).isSome ↔ s.schedule ≠ [])) :=
  ⟨rfl, rfl, rfl, runTestcases_isSome_iff⟩

/-- Witness for C10 at a one-entry schedule and at the empty schedule. -/
theorem claim10_witness :
    ((runTestcases ⟨2, none, 1⟩ ⟨[⟨0, ["t"], [], 1, 0⟩], 0, false, 0⟩).isSome ↔
      ([⟨0, ["t"], [], 1, 0⟩] : List ScheduleEntry) ≠ []) ∧
    ((runTestcases ⟨2, none, 1⟩ ⟨[], 0, false, 0⟩).isSome ↔
      ([] : List ScheduleEntry) ≠ []) :=
  ⟨claim10.2.2.2 ⟨2, none, 1⟩ ⟨[⟨0, ["t"], [], 1, 0⟩], 0, false, 0⟩ rfl,
   claim10.2.2.2 ⟨2, none, 1⟩ ⟨[], 0, false, 0⟩ rfl⟩

/-- A state with one pending spec and one running instance while the exit
routine has been triggered. -/
def stInterrupted : LauncherState := ⟨[⟨0, [], ["w"], 1, 1⟩], 0, true, 0⟩

/-- C2 fails as stated: with the exit routine triggered, `runSpecs` returns
`true` although a pending work item remains queued and an instance is still
running. -/
theorem claim2_counterexample :
    (runSpecs ⟨5, none, 1⟩ stInterrupted).2.2 = true ∧
    ¬(getNumberOfRunningInstances (runSpecs ⟨5, none, 1⟩ stInterrupted).1.schedule = 0 ∧
      getNumberOfSpecsLeft (runSpecs ⟨5, none, 1⟩ stInterrupted).1.schedule = 0) := by
  constructor
  · rfl
  · decide

/-- C2 (amended): when the exit routine has not been triggered, the dispatch
function of each phase returns `true` exactly when, in the post-dispatch
state, no instance is running and no work is left (for phase one, whenever
it returns at all); when the exit routine has been triggered each phase's
dispatch function returns `true` unconditionally (`runTestcases` returns
`some (s, [], true)` untouched); and each phase's exit handler resolves the
phase promise exactly when the re-invoked dispatch function returns
`true`. -/
theorem claim2 :
    (∀ (cfg : Config) (s : LauncherState), s.hasTriggeredExitRoutine = false →
      ((runSpecs cfg s).2.2 = true ↔
        (getNumberOfRunningInstances (runSpecs cfg s).1.schedule = 0 ∧
         getNumberOfSpecsLeft (runSpecs cfg s).1.schedule = 0))) ∧
    (∀ (cfg : Config) (s : LauncherState) (r : LauncherState × List String × Bool),
      s.hasTriggeredExitRoutine = false → runTestcases cfg s = some r →
      (r.2.2 = true ↔
        (getNumberOfRunningInstances r.1.schedule = 0 ∧
         getNumberOfTestcasesLeft r.1.schedule = some 0))) ∧
    (∀ (cfg : Config) (s : LauncherState), s.hasTriggeredExitRoutine = true →
      (runSpecs cfg s).2.2 = true) ∧
    (∀ (cfg : Config) (s : LauncherState), s.hasTriggeredExitRoutine = true →
      runTestcases cfg s = some (s, [], true)) ∧
    (∀ (cfg : Config) (g : Nat) (ec : Int) (s : LauncherState)
      (r : LauncherState × List String × Option Int) (s2 : LauncherState),
      reclaimSlot g ec s = some s2 → endHandlerSpecs cfg g ec s = some r →
      (r.2.2.isSome ↔ (runSpecs cfg s2).2.2 = true)) ∧
    (∀ (cfg : Config) (g : Nat) (ec : Int) (s : LauncherState)
      (r : LauncherState × List String × Option Int) (s2 : LauncherState)
      (rr : LauncherState × List String × Bool),
      reclaimSlot g ec s = some s2 → runTestcases cfg s2 = some rr →
      endHandlerTestcases cfg g ec s = some r →
      (r.2.2.isSome ↔ rr.2.2 = true)) := by
  refine ⟨?_, ?_, ?_, ?_, ?_, ?_⟩
  · intro cfg s hx
    unfold runSpecs
    rw [if_neg (by rw [hx]; exact Bool.false_ne_true)]
    simp only [Bool.and_eq_true, decide_eq_true_eq]
  · intro cfg s r hx hr
    unfold runTestcases at hr
    rw [if_neg (by rw [hx]; exact Bool.false_ne_true)] at hr
    simp only [] at hr
    cases hL : getNumberOfTestcasesLeft (dispatchLoop testcasePhase cfg s).1.schedule with
    | none => rw [hL] at hr; exact absurd hr (by simp)
    | some left =>
      rw [hL] at hr
      injection hr with hr
      rw [← hr]
      simp only [Bool.and_eq_true, decide_eq_true_eq]
      rw [hL]
      constructor
      · intro ⟨h1, h2⟩
        exact ⟨h1, by rw [h2]⟩
      · intro ⟨h1, h2⟩
        injection h2 with h2
        exact ⟨h1, h2⟩
  · intro cfg s hx
    unfold runSpecs
    rw [if_pos hx]
  · intro cfg s hx
    unfold runTestcases
    rw [if_pos hx]
  · intro cfg g ec s r s2 hrec hend
    obtain ⟨s2', hrec', -, -, hres⟩ := endHandlerSpecs_decomp hend
    rw [hrec] at hrec'
    injection hrec' with hrec'
    subst hrec'
    rw [hres]
    cases hdone : (runSpecs cfg s2).2.2 <;> simp [hdone]
  · intro cfg g ec s r s2 rr hrec hrt hend
    obtain ⟨s2', rr', hrec', hrt', -, -, hres⟩ := endHandlerTestcases_decomp hend
    rw [hrec] at hrec'
    injection hrec' with hrec'
    subst hrec'
    rw [hrt] at hrt'
    injection hrt' with hrt'
    subst hrt'
    rw [hres]
    cases hdone : rr.2.2 <;> simp [hdone]

/-- Witness for C2: a drained one-entry schedule in the spec phase, the
exit-routine short-circuit of `runTestcases`, and the resolution decisions of
both phases' exit handlers after the last worker of that schedule exits. -/
theorem claim2_witness :
    ((runSpecs ⟨2, none, 1⟩ ⟨[⟨0, [], [], 1, 0⟩], 0, false, 0⟩).2.2 = true ↔
      (getNumberOfRunningInstances
          (runSpecs ⟨2, none, 1⟩ ⟨[⟨0, [], [], 1, 0⟩], 0, false, 0⟩).1.schedule = 0 ∧
        getNumberOfSpecsLeft
          (runSpecs ⟨2, none, 1⟩ ⟨[⟨0, [], [], 1, 0⟩], 0, false, 0⟩).1.schedule = 0)) ∧
    (runTestcases ⟨2, none, 1⟩ ⟨[⟨0, ["t"], [], 1, 0⟩], 0, true, 0⟩ =
      some (⟨[⟨0, ["t"], [], 1, 0⟩], 0, true, 0⟩, [], true)) ∧
    (((⟨[⟨0, [], [], 1, 0⟩], 0, false, 0⟩, [], some 0) :
        LauncherState × List String × Option Int).2.2.isSome ↔
      (runSpecs ⟨2, none, 1⟩ ⟨[⟨0, [], [], 1, 0⟩], 0, false, 0⟩).2.2 = true) ∧
    (((⟨[⟨0, [], [], 1, 0⟩], 0, false, 0⟩, [], some 0) :
        LauncherState × List String × Option Int).2.2.isSome ↔
      ((⟨[⟨0, [], [], 1, 0⟩], 0, false, 0⟩, [], true) :
        LauncherState × List String × Bool).2.2 = true) :=
  ⟨claim2.1 ⟨2, none, 1⟩ ⟨[⟨0, [], [], 1, 0⟩], 0, false, 0⟩ rfl,
   claim2.2.2.2.1 ⟨2, none, 1⟩ ⟨[⟨0, ["t"], [], 1, 0⟩], 0, true, 0⟩ rfl,
   claim2.2.2.2.2.1 ⟨2, none, 1⟩ 0 0 ⟨[⟨0, [], [], 0, 1⟩], 0, false, 0⟩
     (⟨[⟨0, [], [], 1, 0⟩], 0, false, 0⟩, [], some 0) ⟨[⟨0, [], [], 1, 0⟩], 0, false, 0⟩
     (by decide) (by decide),
   claim2.2.2.2.2.2 ⟨2, none, 1⟩ 0 0 ⟨[⟨0, [], [], 0, 1⟩], 0, false, 0⟩
     (⟨[⟨0, [], [], 1, 0⟩], 0, false, 0⟩, [], some 0) ⟨[⟨0, [], [], 1, 0⟩], 0, false, 0⟩
     (⟨[⟨0, [], [], 1, 0⟩], 0, false, 0⟩, [], true)
     (by decide) (by decide) (by decide)⟩

/-- A spec-phase state whose runner-failure count has already reached the
configured bail threshold. -/
def stBailSpec : LauncherState := ⟨[⟨0, [], ["w"], 1, 0⟩], 1, false, 1⟩

/-- C3 fails as stated for the spec phase: with `bail = 1` already reached
(`runnerFailed = 1`), `runSpecs` still dispatches the queued work item — its
filter chain has no bail filter. -/
theorem claim3_counterexample :
    (⟨1, some 1, 1⟩ : Config).bail = some 1 ∧
    1 ≤ stBailSpec.runnerFailed ∧
    (runSpecs ⟨1, some 1, 1⟩ stBailSpec).2.1 = ["w"] := by
  refine ⟨rfl, by decide, by decide⟩

/-- C3 (amended): in the testcase phase, once `runnerFailed` has reached a
numeric bail threshold `b ≥ 1`, an invocation of the dispatch loop dispatches
no work item, leaves every running counter untouched (in-flight workers
finish undisturbed), and — whenever the loop body is entered at all
(`running < maxInstances`) — clears every pending testcase queue; the spec
phase (`runSpecs`) performs no bail handling at all. -/
theorem claim3 (cfg : Config) (b : Int) (s : LauncherState)
    (hb : cfg.bail = some b) (hb1 : 1 ≤ b) (hbf : b ≤ s.runnerFailed)
    (hx : s.hasTriggeredExitRoutine = false) (hne : s.schedule ≠ []) :
    ∃ r, runTestcases cfg s = some r ∧ r.2.1 = [] ∧
      r.1.schedule.map (·.runningInstances) = s.schedule.map (·.runningInstances) ∧
      (getNumberOfRunningInstances s.schedule < cfg.maxInstances →
        ∀ e ∈ r.1.schedule, e.testcases = []) := by
  have hbt : bailTriggered cfg s.runnerFailed = true := by
    unfold bailTriggered
    rw [hb]
    simp only [Bool.and_eq_true, decide_eq_true_eq]
    exact ⟨hb1, by omega⟩
  have hbe : (testcasePhase.useBail && bailTriggered cfg s.runnerFailed &&
      !s.schedule.isEmpty) = true := by
    rw [hbt]
    have : s.schedule.isEmpty = false := by
      cases hsch : s.schedule with
      | nil => exact absurd hsch hne
      | cons a l => rfl
    rw [this]
    rfl
  unfold runTestcases
  rw [if_neg (by rw [hx]; exact Bool.false_ne_true)]
  simp only []
  by_cases h1 : getNumberOfRunningInstances s.schedule < cfg.maxInstances
  · have hloop : dispatchLoop testcasePhase cfg s = (clearQueues testcasePhase s, []) := by
      unfold dispatchLoop
      exact dispatchLoopF_bail h1 hbe
    rw [hloop]
    have hclr : ∀ e ∈ (clearQueues testcasePhase s).schedule, e.testcases = [] := by
      intro e he
      unfold clearQueues at he
      simp only [List.mem_map] at he
      obtain ⟨x, -, rfl⟩ := he
      exact testcasePhase.get_set x []
    have hsome : getNumberOfTestcasesLeft (clearQueues testcasePhase s).schedule ≠ none := by
      intro hL0
      have hmapnil := (getNumberOfTestcasesLeft_eq_none_iff _).mp hL0
      unfold clearQueues at hmapnil
      simp only [] at hmapnil
      exact hne (List.map_eq_nil_iff.mp hmapnil)
    cases hL : getNumberOfTestcasesLeft (clearQueues testcasePhase s).schedule with
    | none => exact absurd hL hsome
    | some left =>
      refine ⟨_, rfl, rfl, ?_, fun _ => hclr⟩
      unfold clearQueues
      simp only []
      refine map_comp_congr _ _ _ (fun e => ?_)
      rw [testcasePhase.set_run]
  · have hloop : dispatchLoop testcasePhase cfg s = (s, []) := by
      unfold dispatchLoop
      exact dispatchLoopF_not_lt h1
    rw [hloop]
    have hsome : getNumberOfTestcasesLeft s.schedule ≠ none := by
      intro hL0
      exact hne ((getNumberOfTestcasesLeft_eq_none_iff _).mp hL0)
    cases hL : getNumberOfTestcasesLeft s.schedule with
    | none => exact absurd hL hsome
    | some left =>
      exact ⟨_, rfl, rfl, rfl, fun hlt => absurd hlt h1⟩

/-- Witness for C3: `bail = 1` reached with one pending testcase queued;
nothing is dispatched and the queue is cleared. -/
theorem claim3_witness :
    ∃ r, runTestcases ⟨2, some 1, 1⟩ ⟨[⟨0, ["t1", "t2"], [], 1, 0⟩], 1, false, 1⟩ = some r ∧
      r.2.1 = [] ∧
      r.1.schedule.map (·.runningInstances) =
        ([⟨0, ["t1", "t2"], [], 1, 0⟩] : List ScheduleEntry).map (·.runningInstances) ∧
      (getNumberOfRunningInstances
          ([⟨0, ["t1", "t2"], [], 1, 0⟩] : List ScheduleEntry) < (2 : Int) →
        ∀ e ∈ r.1.schedule, e.testcases = []) :=
  claim3 ⟨2, some 1, 1⟩ 1 ⟨[⟨0, ["t1", "t2"], [], 1, 0⟩], 1, false, 1⟩
    rfl (by decide) (by decide) rfl (by decide)

/-- C4: per schedule entry, `availableInstances + runningInstances` is
invariant under both phase dispatch loops and under the exit handler; a
dispatch changes exactly the chosen entry, moving one unit from available to
running, and leaves every other entry untouched. -/
theorem claim4 :
    (∀ (cfg : Config) (s : LauncherState),
      (runSpecs cfg s).1.schedule.map slotSum = s.schedule.map slotSum) ∧
    (∀ (cfg : Config) (s : LauncherState) (r : LauncherState × List String × Bool),
      runTestcases cfg s = some r →
      r.1.schedule.map slotSum = s.schedule.map slotSum) ∧
    (∀ (g : Nat) (ec : Int) (s s2 : LauncherState), reclaimSlot g ec s = some s2 →
      s2.schedule.map slotSum = s.schedule.map slotSum) ∧
    (∀ (cfg : Config) (g : Nat) (ec : Int) (s : LauncherState)
      (r : LauncherState × List String × Option Int), endHandlerSpecs cfg g ec s = some r →
      r.1.schedule.map slotSum = s.schedule.map slotSum) ∧
    (∀ (ph : PhaseOps) (s : LauncherState) (i : Nat) (e : ScheduleEntry),
      s.schedule.get? i = some e →
      (dispatchAt ph s i e).schedule.get? i = some (dispatchEntry ph e) ∧
      (dispatchEntry ph e).availableInstances = e.availableInstances - 1 ∧
      (dispatchEntry ph e).runningInstances = e.runningInstances + 1 ∧
      ∀ j, j ≠ i → (dispatchAt ph s i e).schedule.get? j = s.schedule.get? j) := by
  refine ⟨runSpecs_slotSum, fun cfg s r h => runTestcases_slotSum h,
    fun g ec s s2 h => reclaimSlot_slotSum h, ?_, ?_⟩
  · intro cfg g ec s r h
    obtain ⟨s2, hrec, hr1, -, -⟩ := endHandlerSpecs_decomp h
    rw [hr1, runSpecs_slotSum, reclaimSlot_slotSum hrec]
  · intro ph s i e hget
    refine ⟨get?_set_self hget, ?_, ?_, fun j hne => get?_set_other _ i j hne⟩
    · unfold dispatchEntry
      rw [ph.set_avail]
    · unfold dispatchEntry
      rw [ph.set_run]

/-- Witness for C4: slot conservation of the testcase loop on a one-entry
schedule and the shape of a single dispatch there. -/
theorem claim4_witness :
    (((⟨[⟨0, [], [], 0, 1⟩], 0, false, 0⟩, ["t"], false) :
        LauncherState × List String × Bool).1.schedule.map slotSum =
      ([⟨0, ["t"], [], 1, 0⟩] : List ScheduleEntry).map slotSum) ∧
    ((dispatchAt specPhase ⟨[⟨0, [], ["w"], 1, 0⟩], 0, false, 0⟩ 0
        ⟨0, [], ["w"], 1, 0⟩).schedule.get? 0 =
      some (dispatchEntry specPhase ⟨0, [], ["w"], 1, 0⟩)) :=
  ⟨claim4.2.1 ⟨2, none, 1⟩ ⟨[⟨0, ["t"], [], 1, 0⟩], 0, false, 0⟩
     (⟨[⟨0, [], [], 0, 1⟩], 0, false, 0⟩, ["t"], false) (by decide),
   (claim4.2.2.2.2 specPhase ⟨[⟨0, [], ["w"], 1, 0⟩], 0, false, 0⟩ 0
     ⟨0, [], ["w"], 1, 0⟩ (by decide)).1⟩

/-- C5: at every reachable state of the dispatch loop (states produced from
a phase seeding by dispatch-loop invocations, worker exits and the interrupt
handler), the total number of running instances never exceeds
`config.maxInstances`, and each entry's running instances never exceed the
per-capability limit `capabilities.maxInstances || config.maxInstancesPerCapability`. -/
theorem claim5 (cfg : Config) (caps : List Capability) (s : LauncherState)
    (hmax : 0 ≤ cfg.maxInstances) (hlim : ∀ c ∈ caps, 0 ≤ capLimit cfg c)
    (h : Reach cfg caps s) :
    getNumberOfRunningInstances s.schedule ≤ cfg.maxInstances ∧
    List.Forall₂ (fun c e => e.runningInstances ≤ capLimit cfg c) caps s.schedule := by
  obtain ⟨hF, htot⟩ := reach_schedinv hmax hlim h
  refine ⟨htot, hF.imp (fun c e hR => ?_)⟩
  obtain ⟨h1, h2, h3⟩ := hR
  omega

/-- Witness for C5 at a freshly seeded spec phase with one capability. -/
theorem claim5_witness :
    getNumberOfRunningInstances
        (seedState specPhase ⟨2, none, 1⟩ [⟨some 1⟩] [["w"]] 0 0 false).schedule ≤
      (⟨2, none, 1⟩ : Config).maxInstances ∧
    List.Forall₂ (fun c e => e.runningInstances ≤ capLimit ⟨2, none, 1⟩ c)
      [⟨some 1⟩] (seedState specPhase ⟨2, none, 1⟩ [⟨some 1⟩] [["w"]] 0 0 false).schedule :=
  claim5 ⟨2, none, 1⟩ [⟨some 1⟩]
    (seedState specPhase ⟨2, none, 1⟩ [⟨some 1⟩] [["w"]] 0 0 false)
    (by decide) (by decide)
    (Reach.seedSpec [["w"]] rfl 0 0 false)

/-- C6: whenever the filter chain leaves at least one schedulable entry, the
chosen entry (`schedulableCaps[0]` after the sort) is a schedulable entry of
minimal `runningInstances`, every schedulable entry listed before it has
strictly more running instances (so ties fall to the entry registered
earliest), and the loop pops the head of exactly that entry's queue. -/
theorem claim6 (ph : PhaseOps) (cfg : Config) (s : LauncherState)
    (hx : s.hasTriggeredExitRoutine = false)
    (hbail : ph.useBail = true → bailTriggered cfg s.runnerFailed = false)
    (hne : schedulable ph cfg s ≠ []) :
    ∃ i e pre post,
      chosen ph cfg s = some (i, e) ∧
      schedulable ph cfg s = pre ++ (i, e) :: post ∧
      (∀ p ∈ pre, e.runningInstances < p.2.runningInstances) ∧
      (∀ p ∈ post, e.runningInstances ≤ p.2.runningInstances) ∧
      (dispatchLoop ph cfg s).2.head? = (ph.getQ e).head? := by
  cases hs : schedulable ph cfg s with
  | nil => exact absurd hs hne
  | cons f fs =>
    have hchosen : chosen ph cfg s = some (pickMin (fun p => p.2.runningInstances) f fs) := by
      unfold chosen
      rw [hs]
      exact jsSortBy_head _ f fs
    obtain ⟨pre, post, hdec, hpre, hpost⟩ := pickMin_decomp (fun p => p.2.runningInstances) fs f
    rcases hm : pickMin (fun p => p.2.runningInstances) f fs with ⟨i, e⟩
    rw [hm] at hchosen hdec hpre hpost
    have hmem : (i, e) ∈ schedulable ph cfg s := by
      rw [hs, hdec]
      exact List.mem_append.mpr (Or.inr (List.mem_cons_self _ _))
    obtain ⟨hget, hrun, havail, hq⟩ := mem_schedulable hmem
    have hb2 : ¬ (ph.useBail && bailTriggered cfg s.runnerFailed && !s.schedule.isEmpty) = true := by
      cases hub : ph.useBail with
      | false => simp [hub]
      | true => simp [hub, hbail hub]
    refine ⟨i, e, pre, post, hchosen, hdec, hpre, hpost, ?_⟩
    cases hqe : ph.getQ e with
    | nil => exact absurd hqe hq
    | cons w ws =>
      unfold dispatchLoop
      rw [dispatchLoopF_dispatch hrun hb2 hchosen hqe]
      rfl

/-- Two groups with available capacity; the later-registered one has fewer
running instances. -/
def sFair : LauncherState := ⟨[⟨0, [], ["x"], 2, 2⟩, ⟨1, [], ["y"], 2, 1⟩], 0, false, 0⟩

/-- Witness for C6 on `sFair`: the loop picks the second group. -/
theorem claim6_witness :
    ∃ i e pre post,
      chosen specPhase ⟨10, none, 3⟩ sFair = some (i, e) ∧
      schedulable specPhase ⟨10, none, 3⟩ sFair = pre ++ (i, e) :: post ∧
      (∀ p ∈ pre, e.runningInstances < p.2.runningInstances) ∧
      (∀ p ∈ post, e.runningInstances ≤ p.2.runningInstances) ∧
      (dispatchLoop specPhase ⟨10, none, 3⟩ sFair).2.head? = (specPhase.getQ e).head? :=
  claim6 specPhase ⟨10, none, 3⟩ sFair rfl
    (fun h => absurd h (by decide)) (by decide)

/-! ## Claim theorems: result aggregation -/

theorem evaluateValidations_fst {vres : ValidationResults} {g : String}
    {st cr : Option String} {x : ValidationResults × EvalResult}
    (h : evaluateValidations vres g st cr = some x) : x.1 = vres := by
  unfold evaluateValidations at h
  split at h
  · split at h
    · split at h
      · injection h with h
        rw [← h]
      · exact absurd h (by simp)
    · split at h <;> injection h with h <;> rw [← h]
  · injection h with h
    rw [← h]

/-- C9: `evaluateValidations` never mutates the validation results it reads,
and re-evaluating the same group, story and criteria with no intervening
`validate:*` outcome returns the same classification. -/
theorem claim9 (vres : ValidationResults) (g : String) (st cr : Option String)
    (vres2 : ValidationResults) (r : EvalResult)
    (h : evaluateValidations vres g st cr = some (vres2, r)) :
    vres2 = vres ∧ evaluateValidations vres2 g st cr = some (vres2, r) := by
  have h1 : vres2 = vres := evaluateValidations_fst h
  subst h1
  exact ⟨rfl, h⟩

/-- Witness for C9 on a record with one matcher-carrying failure. -/
theorem claim9_witness :
    ([("0", [("S1", ⟨[], [("C1", [⟨some "toBe", ['m'], none, none, ['s']⟩])], [], []⟩)])] :
        ValidationResults) =
      [("0", [("S1", ⟨[], [("C1", [⟨some "toBe", ['m'], none, none, ['s']⟩])], [], []⟩)])] ∧
    evaluateValidations
      [("0", [("S1", ⟨[], [("C1", [⟨some "toBe", ['m'], none, none, ['s']⟩])], [], []⟩)])]
      "0" (some "S1") (some "C1") =
      some ([("0", [("S1", ⟨[], [("C1", [⟨some "toBe", ['m'], none, none, ['s']⟩])], [], []⟩)])],
        ⟨"fail", some ⟨['m', '\n'], some ['s'], some []⟩,
          some [⟨some "toBe", ['m'], none, none, ['s']⟩], some none⟩) :=
  claim9
    [("0", [("S1", ⟨[], [("C1", [⟨some "toBe", ['m'], none, none, ['s']⟩])], [], []⟩)])]
    "0" (some "S1") (some "C1")
    [("0", [("S1", ⟨[], [("C1", [⟨some "toBe", ['m'], none, none, ['s']⟩])], [], []⟩)])]
    ⟨"fail", some ⟨['m', '\n'], some ['s'], some []⟩,
      some [⟨some "toBe", ['m'], none, none, ['s']⟩], some none⟩
    (by decide)

/-- C1: in the validation phase, a `test:pass` message is rewritten
according to the validation record of the story and criteria recorded in the
group validation state: `test:pass` when no failures bucket exists for the
criteria and a non-empty successes bucket does; `test:fail` when the
failures bucket is non-empty and every recorded failure carries a matcher
identity; `test:broken` when the failures bucket is non-empty and some
recorded failure lacks a matcher identity; and `test:unvalidated` when no
record exists for the criteria at all (story missing, or both buckets
absent). -/
theorem claim1 (vres : ValidationResults) (vstates : List (String × ValidationState))
    (g : String) (vs : ValidationState) (st cr : String)
    (hvs : jsGet vstates g = some vs) (hst : vs.storyId = some st)
    (hcr : vs.criteriaId = some cr) :
    (∀ gr story x xs, jsGet vres g = some gr → jsGet gr st = some story →
      jsGet story.failures cr = none → jsGet story.successes cr = some (x :: xs) →
      messageHandlerTestPass vres vstates g =
        some (vres, "test:pass", ⟨"pass", none, none, none⟩)) ∧
    (∀ gr story f fs, jsGet vres g = some gr → jsGet gr st = some story →
      jsGet story.failures cr = some (f :: fs) →
      (∀ o ∈ f :: fs, (o : FailureOutcome).matcherName.isSome) →
      ∃ r, messageHandlerTestPass vres vstates g = some (vres, "test:fail", r)) ∧
    (∀ gr story f fs, jsGet vres g = some gr → jsGet gr st = some story →
      jsGet story.failures cr = some (f :: fs) →
      (∃ o ∈ f :: fs, (o : FailureOutcome).matcherName = none) →
      ∃ r, messageHandlerTestPass vres vstates g = some (vres, "test:broken", r)) ∧
    (((jsGet vres g).bind (fun gr => jsGet gr st) = none ∨
      (∃ gr story, jsGet vres g = some gr ∧ jsGet gr st = some story ∧
        jsGet story.failures cr = none ∧ jsGet story.successes cr = none)) →
      ∃ r, messageHandlerTestPass vres vstates g = some (vres, "test:unvalidated", r)) := by
  have hopen : ∀ y, evaluateValidations vres g vs.storyId vs.criteriaId = some y →
      messageHandlerTestPass vres vstates g = some (y.1, "test:" ++ y.2.status, y.2) := by
    intro y hy
    obtain ⟨vr, r⟩ := y
    unfold messageHandlerTestPass
    simp only [hvs, hy]
  refine ⟨?_, ?_, ?_, ?_⟩
  · intro gr story x xs hgr hstory hf hsucc
    have hd : (jsGet vres g).bind (fun gr' => jsGetOpt gr' vs.storyId) = some story := by
      rw [hgr, Option.some_bind, hst]
      exact hstory
    have hfd : jsGetOpt story.failures vs.criteriaId = none := by
      rw [hcr]
      exact hf
    have hsd : jsGetOpt story.successes vs.criteriaId = some (x :: xs) := by
      rw [hcr]
      exact hsucc
    have hev : evaluateValidations vres g vs.storyId vs.criteriaId =
        some (vres, ⟨"pass", none, none, none⟩) := by
      unfold evaluateValidations
      rw [hd]
      simp only [hfd, hsd, Option.isSome_some, if_true]
    have := hopen _ hev
    exact this
  · intro gr story f fs hgr hstory hf hall
    have hany : (f :: fs).any (fun e => e.matcherName.isNone) = false := by
      rw [List.any_eq_false]
      intro o ho
      have hs := hall o ho
      cases hmn : o.matcherName with
      | none => rw [hmn] at hs; exact absurd hs (by simp)
      | some v => simp
    have hd : (jsGet vres g).bind (fun gr' => jsGetOpt gr' vs.storyId) = some story := by
      rw [hgr, Option.some_bind, hst]
      exact hstory
    have hfd : jsGetOpt story.failures vs.criteriaId = some (f :: fs) := by
      rw [hcr]
      exact hf
    have hev : ∃ r, evaluateValidations vres g vs.storyId vs.criteriaId = some (vres, r) ∧
        r.status = "fail" := by
      unfold evaluateValidations
      rw [hd]
      simp only [hfd, jsReduce1, List.map_cons, hany, Bool.false_eq_true, if_false]
      exact ⟨_, rfl, rfl⟩
    obtain ⟨r, hev, hstat⟩ := hev
    refine ⟨r, ?_⟩
    have := hopen _ hev
    rw [hstat] at this
    exact this
  · intro gr story f fs hgr hstory hf hsome
    have hany : (f :: fs).any (fun e => e.matcherName.isNone) = true := by
      rw [List.any_eq_true]
      obtain ⟨o, ho, hmn⟩ := hsome
      exact ⟨o, ho, by rw [hmn]; rfl⟩
    have hd : (jsGet vres g).bind (fun gr' => jsGetOpt gr' vs.storyId) = some story := by
      rw [hgr, Option.some_bind, hst]
      exact hstory
    have hfd : jsGetOpt story.failures vs.criteriaId = some (f :: fs) := by
      rw [hcr]
      exact hf
    have hev : ∃ r, evaluateValidations vres g vs.storyId vs.criteriaId = some (vres, r) ∧
        r.status = "broken" := by
      unfold evaluateValidations
      rw [hd]
      simp only [hfd, jsReduce1, List.map_cons, hany, if_true]
      exact ⟨_, rfl, rfl⟩
    obtain ⟨r, hev, hstat⟩ := hev
    refine ⟨r, ?_⟩
    have := hopen _ hev
    rw [hstat] at this
    exact this
  · intro hcase
    have hev : ∃ r, evaluateValidations vres g vs.storyId vs.criteriaId = some (vres, r) ∧
        r.status = "unvalidated" := by
      unfold evaluateValidations
      rcases hcase with hnone | ⟨gr, story, hgr, hstory, hf, hsucc⟩
      · have hd : (jsGet vres g).bind (fun gr' => jsGetOpt gr' vs.storyId) = none := by
          rw [hst]
          exact hnone
        rw [hd]
        exact ⟨_, rfl, rfl⟩
      · have hd : (jsGet vres g).bind (fun gr' => jsGetOpt gr' vs.storyId) = some story := by
          rw [hgr, Option.some_bind, hst]
          exact hstory
        have hfd : jsGetOpt story.failures vs.criteriaId = none := by
          rw [hcr]
          exact hf
        have hsd : jsGetOpt story.successes vs.criteriaId = none := by
          rw [hcr]
          exact hsucc
        rw [hd]
        simp only [hfd, hsd, Option.isSome_none, Bool.false_eq_true, if_false]
        exact ⟨_, rfl, rfl⟩
    obtain ⟨r, hev, hstat⟩ := hev
    refine ⟨r, ?_⟩
    have := hopen _ hev
    rw [hstat] at this
    exact this

/-- A concrete validation record: `C0` succeeded, `C1` failed with a matcher,
`C2` failed without a matcher, `C3` was never validated. -/
def storyW : StoryRec :=
  ⟨[("C0", [⟨some "toBe", none, none⟩])],
   [("C1", [⟨some "toBe", ['m'], none, none, ['s']⟩]),
    ("C2", [⟨none, ['m'], none, none, ['s']⟩])], [], []⟩

/-- The validation results holding `storyW` under story `S1`, group `0`. -/
def vresW : ValidationResults := [("0", [("S1", storyW)])]

/-- A validation state recording story `S1` and the given criteria. -/
def vstW (c : String) : List (String × ValidationState) :=
  [("0", ⟨some "S1", some c, none, none⟩)]

/-- Witness for C1: the four classifications on `storyW`. -/
theorem claim1_witness :
    messageHandlerTestPass vresW (vstW "C0") "0" =
      some (vresW, "test:pass", ⟨"pass", none, none, none⟩) ∧
    (∃ r, messageHandlerTestPass vresW (vstW "C1") "0" = some (vresW, "test:fail", r)) ∧
    (∃ r, messageHandlerTestPass vresW (vstW "C2") "0" = some (vresW, "test:broken", r)) ∧
    (∃ r, messageHandlerTestPass vresW (vstW "C3") "0" =
      some (vresW, "test:unvalidated", r)) :=
  ⟨(claim1 vresW (vstW "C0") "0" ⟨some "S1", some "C0", none, none⟩ "S1" "C0"
      (by decide) rfl rfl).1 [("S1", storyW)] storyW ⟨some "toBe", none, none⟩ []
      (by decide) (by decide) (by decide) (by decide),
   (claim1 vresW (vstW "C1") "0" ⟨some "S1", some "C1", none, none⟩ "S1" "C1"
      (by decide) rfl rfl).2.1 [("S1", storyW)] storyW
      ⟨some "toBe", ['m'], none, none, ['s']⟩ []
      (by decide) (by decide) (by decide) (by decide),
   (claim1 vresW (vstW "C2") "0" ⟨some "S1", some "C2", none, none⟩ "S1" "C2"
      (by decide) rfl rfl).2.2.1 [("S1", storyW)] storyW
      ⟨none, ['m'], none, none, ['s']⟩ []
      (by decide) (by decide) (by decide)
      ⟨⟨none, ['m'], none, none, ['s']⟩, by decide, rfl⟩,
   (claim1 vresW (vstW "C3") "0" ⟨some "S1", some "C3", none, none⟩ "S1" "C3"
      (by decide) rfl rfl).2.2.2
      (Or.inr ⟨[("S1", storyW)], storyW, by decide, by decide, by decide, by decide⟩)⟩

theorem getLast?_cases : ∀ (l : List String), l ≠ [] → ∃ x, l.getLast? = some x ∧ x ∈ l := by
  intro l
  induction l with
  | nil => intro h; exact absurd rfl h
  | cons y ys ih =>
    intro _
    cases hys : ys with
    | nil =>
      subst hys
      exact ⟨y, List.getLast?_singleton y, List.mem_cons_self y []⟩
    | cons z zs =>
      subst hys
      obtain ⟨x, hx, hmem⟩ := ih (by simp)
      refine ⟨x, ?_, by simp [hmem]⟩
      rw [List.getLast?_cons_cons]
      exact hx

theorem stepEventBase_level (oss : Option StepState) :
    (stepEventBase oss).stepLevel = (oss.getD ⟨0, []⟩).stepLevel := by
  unfold stepEventBase
  simp only []
  split <;> rfl

/-- The inherited-failure condition of the `step:end` handler: the status
stack is longer than the current level and its last entry is `failed`. -/
def inheritedFailed (oss : Option StepState) : Prop :=
  ((stepEventBase oss).levelStatus.length : Int) > (stepEventBase oss).stepLevel ∧
    (stepEventBase oss).levelStatus.getLast? = some "failed"

/-- The pending-assertion condition of the `step:end` handler. -/
def pendingFailures (ovs : Option ValidationState) : Prop :=
  ∃ vs, ovs = some vs ∧ vs.assertionFailures.isSome = true

/-- C7: an execution-phase `step:end` reports status `failed` exactly when
the level below already holds `failed` or the group holds pending assertion
failures; otherwise it reports `passed`; pending assertion failures and
screenshots are attached to the message and cleared from the validation
state; and the step level always drops by one. Requires a non-negative step
level and a status stack holding only `passed`/`failed` (true of every
stream-reachable state, since the handler stores no other value). -/
theorem claim7 (oss : Option StepState) (ovs : Option ValidationState)
    (hlev : 0 ≤ (oss.getD ⟨0, []⟩).stepLevel)
    (hvals : ∀ x ∈ (stepEventBase oss).levelStatus, x = "passed" ∨ x = "failed") :
    ((messageHandlerStepEnd oss ovs).status = some "failed" ↔
      (inheritedFailed oss ∨ pendingFailures ovs)) ∧
    ((messageHandlerStepEnd oss ovs).status = some "passed" ↔
      ¬(inheritedFailed oss ∨ pendingFailures ovs)) ∧
    (∀ vs, ovs = some vs → vs.assertionFailures.isSome = true →
      (messageHandlerStepEnd oss ovs).assertionFailures = vs.assertionFailures ∧
      (messageHandlerStepEnd oss ovs).screenshots = some vs.screenshots ∧
      ∃ vs', (messageHandlerStepEnd oss ovs).vstate = some vs' ∧
        vs'.assertionFailures = none ∧ vs'.screenshots = none) ∧
    (messageHandlerStepEnd oss ovs).stepState.stepLevel =
      (oss.getD ⟨0, []⟩).stepLevel - 1 := by
  have hbl := stepEventBase_level oss
  have hlev' : 0 ≤ (stepEventBase oss).stepLevel := by rw [hbl]; exact hlev
  have hstat0 :
      ((if ((stepEventBase oss).levelStatus.length : Int) > (stepEventBase oss).stepLevel
          then (stepEventBase oss).levelStatus.getLast? else some "passed") = some "failed" ↔
        inheritedFailed oss) ∧
      ((if ((stepEventBase oss).levelStatus.length : Int) > (stepEventBase oss).stepLevel
          then (stepEventBase oss).levelStatus.getLast? else some "passed") = some "passed" ↔
        ¬ inheritedFailed oss) := by
    by_cases hgt : ((stepEventBase oss).levelStatus.length : Int) > (stepEventBase oss).stepLevel
    · rw [if_pos hgt]
      have hne : (stepEventBase oss).levelStatus ≠ [] := by
        intro hnil
        rw [hnil] at hgt
        simp only [List.length_nil] at hgt
        omega
      obtain ⟨x, hx, hmem⟩ := getLast?_cases _ hne
      rcases hvals x hmem with rfl | rfl
      · refine ⟨?_, ?_⟩
        · constructor
          · intro hcon
            rw [hx] at hcon
            injection hcon with hcon
            exact absurd hcon (by decide)
          · intro hin
            have h2 := hin.2
            rw [hx] at h2
            injection h2 with h2
            exact absurd h2.symm (by decide)
        · constructor
          · intro _ hin
            have h2 := hin.2
            rw [hx] at h2
            injection h2 with h2
            exact absurd h2.symm (by decide)
          · intro _
            exact hx
      · refine ⟨?_, ?_⟩
        · exact ⟨fun _ => ⟨hgt, hx⟩, fun _ => hx⟩
        · constructor
          · intro hcon
            rw [hx] at hcon
            injection hcon with hcon
            exact absurd hcon (by decide)
          · intro hni
            exact absurd ⟨hgt, hx⟩ hni
    · rw [if_neg hgt]
      refine ⟨?_, ?_⟩
      · constructor
        · intro hcon
          injection hcon with hcon
          exact absurd hcon (by decide)
        · intro hin
          exact absurd hin.1 hgt
      · constructor
        · intro _ hin
          exact hgt hin.1
        · intro _
          rfl
  cases ovs with
  | none =>
    have hpf : ¬ pendingFailures none := by
      intro h
      obtain ⟨vs, hvs, -⟩ := h
      exact absurd hvs (by simp)
    unfold messageHandlerStepEnd
    simp only []
    refine ⟨?_, ?_, ?_, ?_⟩
    · rw [hstat0.1]
      constructor
      · exact Or.inl
      · intro h
        rcases h with h | h
        · exact h
        · exact absurd h hpf
    · rw [hstat0.2]
      constructor
      · intro h hor
        rcases hor with hor | hor
        · exact h hor
        · exact absurd hor hpf
      · intro h
        exact fun hin => h (Or.inl hin)
    · intro vs hvs
      exact absurd hvs (by simp)
    · rw [hbl]
  | some vs =>
    by_cases haf : vs.assertionFailures.isSome = true
    · have hpf : pendingFailures (some vs) := ⟨vs, rfl, haf⟩
      unfold messageHandlerStepEnd
      simp only [if_pos haf]
      refine ⟨?_, ?_, ?_, ?_⟩
      · exact ⟨fun _ => Or.inr hpf, fun _ => trivial⟩
      · constructor
        · intro hcon
          injection hcon with hcon
          exact absurd hcon (by decide)
        · intro h
          exact absurd (Or.inr hpf) h
      · intro vs' hvs' _
        injection hvs' with hvs'
        subst hvs'
        exact ⟨rfl, rfl, ⟨_, rfl, rfl, rfl⟩⟩
      · rw [hbl]
    · have hpf : ¬ pendingFailures (some vs) := by
        intro h
        obtain ⟨vs', hvs', haf'⟩ := h
        injection hvs' with hvs'
        subst hvs'
        exact absurd haf' haf
      unfold messageHandlerStepEnd
      simp only [if_neg haf]
      refine ⟨?_, ?_, ?_, ?_⟩
      · rw [hstat0.1]
        constructor
        · exact Or.inl
        · intro h
          rcases h with h | h
          · exact h
          · exact absurd h hpf
      · rw [hstat0.2]
        constructor
        · intro h hor
          rcases hor with hor | hor
          · exact h hor
          · exact absurd hor hpf
        · intro h
          exact fun hin => h (Or.inl hin)
      · intro vs' hvs' haf'
        injection hvs' with hvs'
        subst hvs'
        exact absurd haf' haf
      · rw [hbl]

/-- Witness for C7: a parent step at level 1 whose child left `failed` on
the status stack, with no pending assertion failures. -/
theorem claim7_witness :
    ((messageHandlerStepEnd (some ⟨1, ["passed", "failed"]⟩) none).status = some "failed" ↔
      (inheritedFailed (some ⟨1, ["passed", "failed"]⟩) ∨ pendingFailures none)) ∧
    ((messageHandlerStepEnd (some ⟨1, ["passed", "failed"]⟩) none).status = some "passed" ↔
      ¬(inheritedFailed (some ⟨1, ["passed", "failed"]⟩) ∨ pendingFailures none)) ∧
    (∀ vs, (none : Option ValidationState) = some vs → vs.assertionFailures.isSome = true →
      (messageHandlerStepEnd (some ⟨1, ["passed", "failed"]⟩) none).assertionFailures =
        vs.assertionFailures ∧
      (messageHandlerStepEnd (some ⟨1, ["passed", "failed"]⟩) none).screenshots =
        some vs.screenshots ∧
      ∃ vs', (messageHandlerStepEnd (some ⟨1, ["passed", "failed"]⟩) none).vstate = some vs' ∧
        vs'.assertionFailures = none ∧ vs'.screenshots = none) ∧
    (messageHandlerStepEnd (some ⟨1, ["passed", "failed"]⟩) none).stepState.stepLevel =
      ((some ⟨1, ["passed", "failed"]⟩ : Option StepState).getD ⟨0, []⟩).stepLevel - 1 :=
  claim7 (some ⟨1, ["passed", "failed"]⟩) none (by decide) (by decide)

/-- Separator-joined concatenation (`m1 ++ sep ++ m2 ++ sep ++ ... ++ mk`). -/
def joinSep (sep : List Char) : List (List Char) → List Char
  | [] => []
  | [x] => x
  | x :: y :: t => x ++ sep ++ joinSep sep (y :: t)

theorem patchAssertionStack_message (a : Assertion) :
    (patchAssertionStack a).message = a.message := by
  unfold patchAssertionStack
  split <;> rfl

theorem handleAssertion_comps (l : List Assertion) :
    ∀ acc, ((l.foldl handleAssertion acc).2.1 =
      acc.2.1 ++ (l.map (fun a => a.message ++ ['\n', '\n'])).flatten) ∧
    ((l.foldl handleAssertion acc).2.2.1 =
      acc.2.2.1 ++ (l.map (fun a => (patchAssertionStack a).stack ++ ['\n', '\n'])).flatten) := by
  induction l with
  | nil => intro acc; simp
  | cons a as ih =>
    intro acc
    rw [List.foldl_cons, List.map_cons, List.map_cons, List.flatten_cons]
    obtain ⟨ihm, ihs⟩ := ih (handleAssertion acc a)
    constructor
    · rw [ihm]
      have : (handleAssertion acc a).2.1 = acc.2.1 ++ a.message ++ ['\n', '\n'] := by
        unfold handleAssertion
        simp only [patchAssertionStack_message]
      rw [this]
      simp [List.append_assoc]
    · rw [ihs]
      have : (handleAssertion acc a).2.2.1 =
          acc.2.2.1 ++ (patchAssertionStack a).stack ++ ['\n', '\n'] := rfl
      rw [this]
      simp [List.append_assoc]

theorem join_map_append_sep (sep : List Char) :
    ∀ (msgs : List (List Char)), msgs ≠ [] →
      (msgs.map (· ++ sep)).flatten = joinSep sep msgs ++ sep := by
  intro msgs
  induction msgs with
  | nil => intro h; exact absurd rfl h
  | cons x xs ih =>
    intro _
    cases hxs : xs with
    | nil => simp [joinSep]
    | cons y t =>
      subst hxs
      rw [List.map_cons, List.flatten_cons]
      rw [ih (by simp)]
      show x ++ sep ++ (joinSep sep (y :: t) ++ sep) = joinSep sep (x :: y :: t) ++ sep
      rw [joinSep]
      simp [List.append_assoc]

theorem jsLastIndexOf_append_self (c : Char) :
    ∀ l : List Char, jsLastIndexOf c (l ++ [c]) = l.length := by
  intro l
  induction l with
  | nil => simp [jsLastIndexOf]
  | cons x xs ih =>
    rw [List.cons_append, jsLastIndexOf]
    simp only [ih]
    rw [if_pos (by omega)]
    simp

theorem jsCutAfterLast_append_nl (X : List Char) (hne : X ≠ []) :
    jsCutAfterLast '\n' (X ++ ['\n']) = X := by
  unfold jsCutAfterLast
  rw [jsLastIndexOf_append_self]
  have hlen : 0 < X.length := List.length_pos.mpr hne
  rw [if_pos (by exact_mod_cast hlen)]
  have : ((X.length : Int)).toNat = X.length := rfl
  rw [this]
  exact List.take_left X ['\n']

/-- An assertion lacking a matcher identity, buffered as a `step:failed`
(not `step:broken`) event. -/
def aNoMatcher : Assertion := ⟨none, ['b'], none, none, ['a', 't', ' ', 'x'], none⟩

/-- C8 fails as stated: with one buffered `step:failed` assertion lacking a
matcher identity and an empty `broken` bucket, the tag stays `test:fail` —
the rewrite keys on the `broken` bucket, not on matcher identity. -/
theorem claim8_counterexample :
    (∃ a ∈ (⟨[aNoMatcher], []⟩ : StepErrors).failed ++ (⟨[aNoMatcher], []⟩ : StepErrors).broken,
      a.matcherName = none) ∧
    (messageHandlerTestFail ⟨[aNoMatcher], []⟩ []).event = "test:fail" ∧
    (messageHandlerTestFail ⟨[aNoMatcher], []⟩ []).event ≠ "test:broken" := by
  refine ⟨⟨aNoMatcher, by decide, rfl⟩, by decide, by decide⟩

/-- C8 (amended): the execution-phase `test:fail` handler concatenates the
messages and (patched) stacks of all assertions buffered from the group's
`step:failed` then `step:broken` events, entries separated by blank lines
with the final trailing newline removed, and rewrites the event tag to
`test:broken` exactly when the `broken` bucket — the assertions buffered
from `step:broken` events — is non-empty. -/
theorem claim8 (se : StepErrors) (gr : GroupResults) :
    ((messageHandlerTestFail se gr).event = "test:broken" ↔ se.broken ≠ []) ∧
    (∀ a as, se.failed ++ se.broken = a :: as →
      (messageHandlerTestFail se gr).errMessage =
        joinSep ['\n', '\n'] ((a :: as).map (·.message)) ++ ['\n'] ∧
      (messageHandlerTestFail se gr).errStack =
        joinSep ['\n', '\n'] ((a :: as).map (fun x => (patchAssertionStack x).stack)) ++ ['\n']) := by
  constructor
  · unfold messageHandlerTestFail
    simp only []
    cases hb : se.broken with
    | nil => simp
    | cons b bs => simp
  · intro a as hcons
    have hcomps := handleAssertion_comps (se.failed ++ se.broken) (gr, [], [], [])
    rw [hcons] at hcomps
    obtain ⟨hm, hs⟩ := hcomps
    have hmsg : (messageHandlerTestFail se gr).errMessage =
        jsCutAfterLast '\n' (((a :: as).map (fun x => x.message ++ ['\n', '\n'])).flatten) := by
      unfold messageHandlerTestFail
      simp only []
      rw [hcons]
      rw [hm]
      rfl
    have hstk : (messageHandlerTestFail se gr).errStack =
        jsCutAfterLast '\n'
          (((a :: as).map (fun x => (patchAssertionStack x).stack ++ ['\n', '\n'])).flatten) := by
      unfold messageHandlerTestFail
      simp only []
      rw [hcons]
      rw [hs]
      rfl
    constructor
    · rw [hmsg]
      have hjoin : ((a :: as).map (fun x => x.message ++ ['\n', '\n'])).flatten =
          joinSep ['\n', '\n'] ((a :: as).map (·.message)) ++ ['\n', '\n'] := by
        have := join_map_append_sep ['\n', '\n'] ((a :: as).map (·.message)) (by simp)
        rw [← this]
        rw [List.map_map]
        rfl
      rw [hjoin]
      have hassoc : joinSep ['\n', '\n'] ((a :: as).map (·.message)) ++ ['\n', '\n'] =
          (joinSep ['\n', '\n'] ((a :: as).map (·.message)) ++ ['\n']) ++ ['\n'] := by
        simp [List.append_assoc]
      rw [hassoc, jsCutAfterLast_append_nl _ (by simp)]
    · rw [hstk]
      have hjoin : ((a :: as).map (fun x => (patchAssertionStack x).stack ++ ['\n', '\n'])).flatten =
          joinSep ['\n', '\n'] ((a :: as).map (fun x => (patchAssertionStack x).stack)) ++
            ['\n', '\n'] := by
        have := join_map_append_sep ['\n', '\n']
          ((a :: as).map (fun x => (patchAssertionStack x).stack)) (by simp)
        rw [← this]
        rw [List.map_map]
        rfl
      rw [hjoin]
      have hassoc :
          joinSep ['\n', '\n'] ((a :: as).map (fun x => (patchAssertionStack x).stack)) ++
            ['\n', '\n'] =
          (joinSep ['\n', '\n'] ((a :: as).map (fun x => (patchAssertionStack x).stack)) ++
            ['\n']) ++ ['\n'] := by
        simp [List.append_assoc]
      rw [hassoc, jsCutAfterLast_append_nl _ (by simp)]

/-- Witness for C8: one matcher-carrying `step:failed` and one `step:broken`
assertion. -/
theorem claim8_witness :
    ((messageHandlerTestFail ⟨[⟨some "toBe", ['m', '1'], none, none, ['a', 't', ' ', 'x'], none⟩],
        [⟨none, ['m', '2'], none, none, ['a', 't', ' ', 'y'], none⟩]⟩ []).event = "test:broken" ↔
      ([⟨none, ['m', '2'], none, none, ['a', 't', ' ', 'y'], none⟩] : List Assertion) ≠ []) ∧
    (messageHandlerTestFail ⟨[⟨some "toBe", ['m', '1'], none, none, ['a', 't', ' ', 'x'], none⟩],
        [⟨none, ['m', '2'], none, none, ['a', 't', ' ', 'y'], none⟩]⟩ []).errMessage =
      joinSep ['\n', '\n']
        (([⟨some "toBe", ['m', '1'], none, none, ['a', 't', ' ', 'x'], none⟩,
           ⟨none, ['m', '2'], none, none, ['a', 't', ' ', 'y'], none⟩] : List Assertion).map
          (·.message)) ++ ['\n'] :=
  ⟨(claim8 ⟨[⟨some "toBe", ['m', '1'], none, none, ['a', 't', ' ', 'x'], none⟩],
      [⟨none, ['m', '2'], none, none, ['a', 't', ' ', 'y'], none⟩]⟩ []).1,
   ((claim8 ⟨[⟨some "toBe", ['m', '1'], none, none, ['a', 't', ' ', 'x'], none⟩],
      [⟨none, ['m', '2'], none, none, ['a', 't', ' ', 'y'], none⟩]⟩ []).2
     ⟨some "toBe", ['m', '1'], none, none, ['a', 't', ' ', 'x'], none⟩
     [⟨none, ['m', '2'], none, none, ['a', 't', ' ', 'y'], none⟩] rfl).1⟩

end Wdio
